import Mathlib

/-!
Verification of the parameter-normalization and model-selection logic of the
AMPL drug-discovery pipeline (files atomsci/ddm/pipeline/parameter_parser.py
and atomsci/ddm/pipeline/model_wrapper.py), as a shallow embedding.

Strings are modelled as lists of characters (the mathematical content of a
Python str).  Python floats that the parser produces with float(...) on
decimal literals are modelled exactly as scaled decimal integers (structure
Dec below); fractional configuration values that argparse converts with
type=float are modelled as rationals.  Exceptions are modelled by an Except
monad with a small Python-exception-kind type.
-/

set_option autoImplicit false

namespace AMPL

/-- A Python string, modelled as its list of characters. -/

abbrev Str := List Char

/-- Python str.split(sep) for a one-character separator: splits a character
list at every occurrence of the separator, keeping empty segments. -/

def splitOnChar (sep : Char) : Str → List Str
  | [] => [[]]
  | c :: cs =>
    match splitOnChar sep cs with
    | [] => [[]]
    | g :: gs => if c = sep then [] :: g :: gs else (c :: g) :: gs

/-- Python sep.join(...) for a one-character separator. -/

def joinChar (sep : Char) : List Str → Str
  | [] => []
  | [g] => g
  | g :: gs => g ++ sep :: joinChar sep gs

/-! Python str.strip() (whitespace at both ends). -/

/-- Characters stripped by Python str.strip(). -/

def isPySpace (c : Char) : Bool := c = ' ' || c = '\t' || c = '\n' || c = '\r'

/-- Python str.strip(): remove leading and trailing whitespace. -/

def stripChars (s : Str) : Str :=
  ((s.dropWhile isPySpace).reverse.dropWhile isPySpace).reverse

/-! Decimal digits: parsing and printing of natural numbers, as performed by
the Python built-ins int() and str() on nonnegative decimal literals. -/

/-- Value of a decimal digit character, none for a non-digit. -/

def digitVal? (c : Char) : Option Nat :=
  if '0' ≤ c ∧ c ≤ '9' then some (c.toNat - '0'.toNat) else none

/-- Fold a character list into the Nat it denotes in decimal (no emptiness
check). -/

def charsToNatCore (cs : Str) : Option Nat :=
  cs.foldl (fun acc c => acc.bind fun a => (digitVal? c).map fun d => 10 * a + d) (some 0)

/-- Python int() restricted to unsigned decimal digit strings. -/

def charsToNat? (cs : Str) : Option Nat :=
  match cs with
  | [] => none
  | _ :: _ => charsToNatCore cs

/-- Python str() of a nonnegative integer. -/

def natToChars (n : Nat) : Str :=
  if n < 10 then [Nat.digitChar n] else natToChars (n / 10) ++ [Nat.digitChar (n % 10)]
termination_by n
decreasing_by
  exact Nat.div_lt_self (by omega) (by norm_num)

/-! Signed integers: Python int() and str(). -/

/-- Python str() of an int. -/

def intToChars (i : Int) : Str :=
  if i < 0 then '-' :: natToChars i.natAbs else natToChars i.natAbs

/-- Python int() restricted to optionally sign-prefixed decimal digit
strings. -/

def charsToInt? (cs : Str) : Option Int :=
  match cs with
  | [] => none
  | c :: rest =>
    if c = '-' then (charsToNat? rest).map fun n => -(n : Int)
    else if c = '+' then (charsToNat? rest).map fun n => (n : Int)
    else (charsToNat? (c :: rest)).map fun n => (n : Int)

/-! Python floats, restricted to the exact decimal values the parameter parser
produces with float() on plain decimal literals.  A value is a scaled decimal
integer mant / 10 ^ exp; float() on such literals and str() back are exact
(Python floats round-trip through repr), so the value-level round trip proved
below matches the behaviour of the source. -/

/-- Exact decimal number: mant / 10 ^ exp. -/

structure Dec where
  mant : Int
  exp : Nat
deriving DecidableEq

/-- Python float() on an unsigned decimal literal (digits, optional dot). -/

def parseUnsignedDec? (cs : Str) : Option Dec :=
  match splitOnChar '.' cs with
  | [w] => (charsToNat? w).map fun (n : Nat) => (⟨(n : Int), 0⟩ : Dec)
  | [w, f] =>
    match w, f with
    | [], [] => none
    | [], _ :: _ => (charsToNat? f).map fun (fn : Nat) => (⟨(fn : Int), f.length⟩ : Dec)
    | _ :: _, [] => (charsToNat? w).map fun (wn : Nat) => (⟨(wn : Int), 0⟩ : Dec)
    | _ :: _, _ :: _ =>
      (charsToNat? w).bind fun (wn : Nat) =>
        (charsToNat? f).map fun (fn : Nat) =>
          (⟨(wn : Int) * 10 ^ f.length + (fn : Int), f.length⟩ : Dec)
  | _ => none

/-- Python float() on an optionally signed decimal literal. -/

def parseDec? (cs : Str) : Option Dec :=
  match cs with
  | [] => none
  | c :: rest =>
    if c = '-' then (parseUnsignedDec? rest).map fun d => (⟨-d.mant, d.exp⟩ : Dec)
    else if c = '+' then parseUnsignedDec? rest
    else parseUnsignedDec? (c :: rest)

/-- Python str() of the decimal value. -/

def decToChars (d : Dec) : Str :=
  if d.exp = 0 then intToChars d.mant
  else
    (if d.mant < 0 then ['-'] else []) ++
      natToChars (d.mant.natAbs / 10 ^ d.exp) ++
      '.' :: (List.replicate (d.exp - (natToChars (d.mant.natAbs % 10 ^ d.exp)).length) '0' ++
        natToChars (d.mant.natAbs % 10 ^ d.exp))

/-! The parameter parser: the list-typing tables of parameter_parser.py
(lines 14-39) and the postprocessing of parsed arguments (postprocess_args,
lines 883-1012), restricted to a representative subset of the parameter
namespace: the split-strategy and split-fraction parameters, prediction type,
model choice score type, the hyperparam flag, the four layered neural-net
parameters, learning_rate, response_cols and model_type.  The model_filter
file loading (file I/O) is not modelled. -/

/-- The rational value of a decimal. -/

def Dec.toRat (d : Dec) : ℚ := (d.mant : ℚ) / 10 ^ d.exp

/-- Exact comparison of two decimals, used to order the oracle-provided
model-choice scores. -/

def Dec.le (a b : Dec) : Bool :=
  decide (a.mant * ((10 ^ b.exp : Nat) : Int) ≤ b.mant * ((10 ^ a.exp : Nat) : Int))

/-! IEEE binary64 arithmetic, as performed by Python floats: the split
fractions are argparse type=float values, and the checks at
parameter_parser.py lines 938 and 941 add and compare binary64 doubles,
whose rounding near 1.0 differs from exact decimal arithmetic.  A finite
double is m * 2^e; parsing a decimal and adding two doubles round the exact
value to 53 significant bits (round to nearest, ties to even), with the
exponent clamped at 2^-1074 for subnormals and overflow beyond the binary64
range going to infinity. -/

/-- An IEEE binary64 value: finite m * 2^e, an infinity, or NaN. -/

inductive B64 where
  | finite (m : Int) (e : Int)
  | inf
  | negInf
  | nan
deriving DecidableEq

/-- Fuel-driven binary length: bitlenAux n n is the bit length of n. -/

def bitlenAux : Nat → Nat → Nat
  | 0, _ => 0
  | fuel + 1, n => if n = 0 then 0 else bitlenAux fuel (n / 2) + 1

/-- The number of binary digits of n. -/

def bitlen (n : Nat) : Nat := bitlenAux n n

/-- Whether 2^e ≤ a / b, for positive naturals a and b. -/

def ratGe2pow (a b : Nat) (e : Int) : Bool :=
  if 0 ≤ e then decide (b * 2 ^ e.toNat ≤ a) else decide (b ≤ a * 2 ^ (-e).toNat)

/-- floor(log2(a / b)) for positive naturals a and b: the bit lengths bound
the quotient within a factor of two and one comparison settles the floor. -/

def floorLogRat (a b : Nat) : Int :=
  let e0 : Int := (bitlen a : Int) - (bitlen b : Int)
  if ratGe2pow a b e0 then e0 else e0 - 1

/-- Round A / B to the nearest integer, ties to even (B positive). -/

def roundHalfEven (A B : Nat) : Nat :=
  let q := A / B
  let r := A % B
  if B < 2 * r then q + 1
  else if 2 * r < B then q
  else if q % 2 = 0 then q else q + 1

/-- Round the positive rational a / b to the nearest binary64 value: the
significand is read at the ulp position max(floor(log2(a/b)) - 52, -1074),
a carry into 2^53 renormalizes, and a result beyond the largest finite
exponent is infinite. -/

def roundPosRatToB64 (a b : Nat) : B64 :=
  let f := floorLogRat a b
  let e := max (f - 52) (-1074)
  let s := if 0 ≤ e then roundHalfEven a (b * 2 ^ e.toNat)
           else roundHalfEven (a * 2 ^ (-e).toNat) b
  let s2 := if s = 2 ^ 53 then 2 ^ 52 else s
  let e2 := if s = 2 ^ 53 then e + 1 else e
  if 971 < e2 then B64.inf
  else if s2 = 0 then B64.finite 0 0
  else B64.finite (s2 : Int) e2

/-- Negation of a binary64 value. -/

def B64.neg : B64 → B64
  | finite m e => finite (-m) e
  | inf => negInf
  | negInf => inf
  | nan => nan

/-- The binary64 value of an exact decimal: float() on the literal. -/

def decToB64 (d : Dec) : B64 :=
  if d.mant = 0 then B64.finite 0 0
  else if 0 < d.mant then roundPosRatToB64 d.mant.toNat (10 ^ d.exp)
  else B64.neg (roundPosRatToB64 (-d.mant).toNat (10 ^ d.exp))

/-- IEEE binary64 addition: align the exponents, add exactly, round. -/

def b64Add : B64 → B64 → B64
  | B64.nan, _ => B64.nan
  | _, B64.nan => B64.nan
  | B64.inf, B64.negInf => B64.nan
  | B64.negInf, B64.inf => B64.nan
  | B64.inf, _ => B64.inf
  | _, B64.inf => B64.inf
  | B64.negInf, _ => B64.negInf
  | _, B64.negInf => B64.negInf
  | B64.finite m1 e1, B64.finite m2 e2 =>
    let e := min e1 e2
    let M := m1 * 2 ^ (e1 - e).toNat + m2 * 2 ^ (e2 - e).toNat
    if M = 0 then B64.finite 0 0
    else if 0 < M then
      if 0 ≤ e then roundPosRatToB64 (M.toNat * 2 ^ e.toNat) 1
      else roundPosRatToB64 M.toNat (2 ^ (-e).toNat)
    else
      B64.neg (if 0 ≤ e then roundPosRatToB64 ((-M).toNat * 2 ^ e.toNat) 1
        else roundPosRatToB64 (-M).toNat (2 ^ (-e).toNat))

/-- IEEE comparison of a binary64 value against 1.0 (NaN compares false). -/

def b64Ge1 : B64 → Bool
  | B64.finite m e =>
    if 0 ≤ e then decide (1 ≤ m * 2 ^ e.toNat)
    else decide ((2 : Int) ^ (-e).toNat ≤ m)
  | B64.inf => true
  | B64.negInf => false
  | B64.nan => false

/-- The float check of parameter_parser.py line 938: the binary64 sum of the
two split fractions is at least 1.0. -/

def splitSumGe1 (v t : Dec) : Bool :=
  b64Ge1 (b64Add (decToB64 v) (decToB64 t))

/-- The float check of line 941: the binary64 test fraction is at least
1.0. -/

def splitTestGe1 (t : Dec) : Bool := b64Ge1 (decToB64 t)

/-- Python exceptions raised by the parser, by kind. -/

inductive PyErr
  | valueError (msg : String)
  | exception (msg : String)
deriving DecidableEq

/-- Parameters parsed into float lists (parameter_parser.py line 14). -/

def convert_to_float_list : List String :=
  ["dropouts", "weight_init_stddevs", "bias_init_consts", "learning_rate",
   "umap_targ_wt", "umap_min_dist", "dropout_list", "weight_decay_penalty",
   "xgb_learning_rate", "xgb_gamma", "xgb_min_child_weight", "xgb_subsample",
   "xgb_colsample_bytree"]

/-- Parameters parsed into int lists (line 22). -/

def convert_to_int_list : List String :=
  ["layer_sizes", "rf_max_features", "rf_estimators", "rf_max_depth",
   "umap_dim", "umap_neighbors", "layer_nums", "node_nums",
   "xgb_max_depth", "xgb_n_estimators"]

/-- Parameters kept as lists even when singletons (line 26). -/

def keep_as_list : List String :=
  ["dropouts", "weight_init_stddevs", "bias_init_consts", "layer_sizes",
   "dropout_list", "layer_nums"]

/-- Parameters that may not be lists outside hyperparameter mode (line 28). -/

def not_a_list_outside_of_hyperparams : List String :=
  ["learning_rate", "weight_decay_penalty", "xgb_learning_rate", "xgb_gamma",
   "xgb_min_child_weight", "xgb_subsample", "xgb_colsample_bytree",
   "xgb_max_depth", "xgb_n_estimators"]

/-- Parameters parsed into string lists (line 36). -/

def convert_to_str_list : List String :=
  ["response_cols", "model_type", "featurizer", "splitter", "umap_metric",
   "weight_decay_penalty_type", "descriptor_type"]

/-- String parameters that may not be lists outside hyperparameter mode
(line 38). -/

def not_a_str_list_outside_of_hyperparams : List String :=
  ["model_type", "featurizer", "splitter", "umap_metric",
   "weight_decay_penalty_type", "descriptor_type"]

/-- Membership in keep_as_list as a Bool. -/

def keepB (k : String) : Bool := decide (k ∈ keep_as_list)

/-- Membership in not_a_list_outside_of_hyperparams as a Bool. -/

def nalB (k : String) : Bool := decide (k ∈ not_a_list_outside_of_hyperparams)

/-- The null-marker strings of postprocess_args (line 921). -/

def null_options : List Str :=
  (["null", "Null", "none", "None", "N/A", "n/a", "NaN", "nan", "NAN",
    "NONE", "NULL", "NA"] : List String).map String.data

/-- The null-replacement pass of postprocess_args (lines 923-925). -/

def nullifyStr (v : Option Str) : Option Str :=
  match v with
  | Option.none => Option.none
  | some s => if s ∈ null_options then Option.none else some s

/-- The at-sign-to-space replacement pass of postprocess_args (lines 926-927). -/

def replaceAt (s : Str) : Str := s.map fun c => if c = '@' then ' ' else c

/-- Null replacement followed by at-sign replacement (lines 923-927). -/

def normStr (v : Option Str) : Option Str := (nullifyStr v).map replaceAt

/-- The value of a list-typed parameter after postprocessing: absent, a
scalar collapsed from a singleton list, a flat list, or (hyperparameter
mode) a list of lists. -/

inductive NumField (α : Type)
  | nofield
  | scalar (a : α)
  | list (l : List α)
  | llist (ll : List (List α))
deriving DecidableEq

/-- The value of a string-list-typed parameter after postprocessing. -/

inductive StrField
  | nofield
  | scalar (s : Str)
  | list (l : List Str)
deriving DecidableEq

/-- Elementwise parse of a segment list, failing on the first bad segment
(the list comprehension with int()/float() in postprocess_args). -/

def parseList {α : Type} (parse : Str → Option α) : List Str → Option (List α)
  | [] => some []
  | s :: rest => (parse s).bind fun a => (parseList parse rest).map fun l => a :: l

/-- The singleton-collapse and not-a-list-outside-of-hyperparams stage of
the non-hyperparameter numeric conversion (postprocess_args lines 988-994),
applied to the already-parsed list. -/

def procNumericList {α : Type} (keep notAList : Bool) (l : List α) :
    Except PyErr (NumField α) :=
  match l with
  | [a] =>
    if keep then
      if notAList then
        .error (.exception "not accepted as a list if hyperparams is False")
      else .ok (.list [a])
    else .ok (.scalar a)
  | _ =>
    if notAList then
      .error (.exception "not accepted as a list if hyperparams is False")
    else .ok (.list l)

/-- Comma-splitting, stripping and numeric conversion of one parameter
outside hyperparameter mode, with the singleton-collapse and the
not-a-list-outside-of-hyperparams check (postprocess_args lines 981-994). -/

def procNumeric {α : Type} (parse : Str → Option α) (keep notAList : Bool)
    (v : Option Str) : Except PyErr (NumField α) :=
  match v with
  | Option.none => .ok .nofield
  | some s =>
    match parseList (fun seg => parse (stripChars seg)) (splitOnChar ',' s) with
    | Option.none => .error (.valueError "invalid literal for numeric conversion")
    | some l => procNumericList keep notAList l

/-- Space-then-comma splitting and numeric conversion of one parameter in
hyperparameter mode (postprocess_args lines 959-979). -/

def procNumericHyp {α : Type} (parse : Str → Option α) (keep : Bool)
    (v : Option Str) : Except PyErr (NumField α) :=
  match v with
  | Option.none => .ok .nofield
  | some s =>
    match parseList
        (fun g => parseList (fun seg => parse (stripChars seg)) (splitOnChar ',' g))
        (splitOnChar ' ' s) with
    | Option.none => .error (.valueError "invalid literal for numeric conversion")
    | some ll =>
      match ll with
      | [l] =>
        match l with
        | [a] => if keep then .ok (.list [a]) else .ok (.scalar a)
        | _ => .ok (.list l)
      | _ => .ok (.llist ll)

/-- Comma-splitting and stripping of a string-list parameter in
hyperparameter mode, with singleton collapse except for response_cols
(postprocess_args lines 953-957). -/

def procStrListHyp (isResponseCols : Bool) (v : Option Str) : StrField :=
  match v with
  | Option.none => .nofield
  | some s =>
    match (splitOnChar ',' s).map stripChars with
    | [x] => if isResponseCols then .list [x] else .scalar x
    | parts => .list parts

/-- The delimiter check on string parameters outside hyperparameter mode
(postprocess_args lines 996-999). -/

def checkNotAStrList (v : Option Str) : Except PyErr StrField :=
  match v with
  | Option.none => .ok .nofield
  | some s =>
    if ',' ∈ s ∨ ' ' ∈ s then
      .error (.exception "cannot contain a comma or whitespace when hyperparams is False")
    else .ok (.scalar s)

/-- The comma-splitting of response_cols outside hyperparameter mode
(postprocess_args lines 1000-1002); no stripping is applied there. -/

def procResponseColsNoHyp (v : Option Str) : StrField :=
  match v with
  | Option.none => .nofield
  | some s => .list (splitOnChar ',' s)

/-- The length of a processed parameter when it is a list. -/

def numFieldLen? {α : Type} : NumField α → Option Nat
  | .list l => some l.length
  | _ => Option.none

/-- Whether a layered parameter is present with a length different from
nlayers. -/

def lenMismatch (f : NumField Dec) (n : Nat) : Bool :=
  match numFieldLen? f with
  | some m => decide (m ≠ n)
  | Option.none => false

/-- The layered-parameter length check of postprocess_args (lines 1005-1011):
it fires only when layer_sizes is present. -/

def checkLayerLengths (ls : NumField Int) (dp wi bi : NumField Dec) :
    Except PyErr Unit :=
  match numFieldLen? ls with
  | some nlayers =>
    if lenMismatch dp nlayers || lenMismatch wi nlayers || lenMismatch bi nlayers then
      .error (.exception
        "layer_sizes, dropouts, weight_init_stddevs and bias_init_consts arguments must be the same length")
    else .ok ()
  | Option.none => .ok ()

/-- The raw argparse output for the modelled parameter subset: string-valued
parameters as optional strings, argparse type=float parameters as rationals,
store_true flags as Bool, with the argparse defaults of get_parser. -/

structure RawParams where
  split_strategy : Str := "train_valid_test".data
  split_valid_frac : Dec := ⟨1, 1⟩
  split_test_frac : Dec := ⟨1, 1⟩
  prediction_type : Str := "regression".data
  model_choice_score_type : Option Str := Option.none
  hyperparam : Bool := false
  layer_sizes : Option Str := Option.none
  dropouts : Option Str := Option.none
  weight_init_stddevs : Option Str := Option.none
  bias_init_consts : Option Str := Option.none
  learning_rate : Option Str := some "0.0005".data
  response_cols : Option Str := Option.none
  model_type : Option Str := Option.none
deriving DecidableEq

/-- The postprocessed parameter namespace for the modelled subset. -/

structure ProcParams where
  split_strategy : Str
  split_valid_frac : Dec
  split_test_frac : Dec
  prediction_type : Str
  model_choice_score_type : Str
  hyperparam : Bool
  layer_sizes : NumField Int
  dropouts : NumField Dec
  weight_init_stddevs : NumField Dec
  bias_init_consts : NumField Dec
  learning_rate : NumField Dec
  response_cols : StrField
  model_type : StrField
deriving DecidableEq

/-- The conditional default for model_choice_score_type (postprocess_args
lines 944-949), applied after the null-replacement pass. -/

def mcstDefault (mc : Option Str) (prediction_type : Str) : Str :=
  match normStr mc with
  | some s => s
  | Option.none =>
    if prediction_type = "classification".data then "roc_auc".data
    else "r2".data

/-- postprocess_args (parameter_parser.py lines 883-1012) on the modelled
parameter subset: the null and at-sign replacement passes, the split-fraction
validation, the conditional default for model_choice_score_type, and the
list-conversion passes of the hyperparam and non-hyperparam branches
including the delimiter and layered-length checks.  Each raised Python
exception is modelled as an error result. -/

def postprocessArgs (p : RawParams) : Except PyErr ProcParams :=
  if p.split_strategy = "train_valid_test".data ∧
      splitSumGe1 p.split_valid_frac p.split_test_frac = true then
    .error (.exception
      "Split fractions for validation and test sets leave no room for training set.")
  else if p.split_strategy = "k_fold_cv".data ∧ splitTestGe1 p.split_test_frac = true then
    .error (.exception
      "Split fraction for test set leaves no room for training and validation data.")
  else if p.hyperparam then
    (procNumericHyp charsToInt? (keepB "layer_sizes") (normStr p.layer_sizes)).bind fun ls =>
    (procNumericHyp parseDec? (keepB "dropouts") (normStr p.dropouts)).bind fun dp =>
    (procNumericHyp parseDec? (keepB "weight_init_stddevs") (normStr p.weight_init_stddevs)).bind fun wi =>
    (procNumericHyp parseDec? (keepB "bias_init_consts") (normStr p.bias_init_consts)).bind fun bi =>
    (procNumericHyp parseDec? (keepB "learning_rate") (normStr p.learning_rate)).bind fun lr =>
    .ok { split_strategy := p.split_strategy,
          split_valid_frac := p.split_valid_frac,
          split_test_frac := p.split_test_frac,
          prediction_type := p.prediction_type,
          model_choice_score_type := mcstDefault p.model_choice_score_type p.prediction_type,
          hyperparam := p.hyperparam,
          layer_sizes := ls, dropouts := dp, weight_init_stddevs := wi,
          bias_init_consts := bi, learning_rate := lr,
          response_cols := procStrListHyp true (normStr p.response_cols),
          model_type := procStrListHyp false (normStr p.model_type) }
  else
    (procNumeric charsToInt? (keepB "layer_sizes") (nalB "layer_sizes") (normStr p.layer_sizes)).bind fun ls =>
    (procNumeric parseDec? (keepB "dropouts") (nalB "dropouts") (normStr p.dropouts)).bind fun dp =>
    (procNumeric parseDec? (keepB "weight_init_stddevs") (nalB "weight_init_stddevs") (normStr p.weight_init_stddevs)).bind fun wi =>
    (procNumeric parseDec? (keepB "bias_init_consts") (nalB "bias_init_consts") (normStr p.bias_init_consts)).bind fun bi =>
    (procNumeric parseDec? (keepB "learning_rate") (nalB "learning_rate") (normStr p.learning_rate)).bind fun lr =>
    (checkNotAStrList (normStr p.model_type)).bind fun mt =>
    (checkLayerLengths ls dp wi bi).bind fun _ =>
    .ok { split_strategy := p.split_strategy,
          split_valid_frac := p.split_valid_frac,
          split_test_frac := p.split_test_frac,
          prediction_type := p.prediction_type,
          model_choice_score_type := mcstDefault p.model_choice_score_type p.prediction_type,
          hyperparam := p.hyperparam,
          layer_sizes := ls, dropouts := dp, weight_init_stddevs := wi,
          bias_init_consts := bi, learning_rate := lr,
          response_cols := procResponseColsNoHyp (normStr p.response_cols),
          model_type := mt }

/-- Whether an Except result is a success. -/

def exceptOk {ε α : Type} : Except ε α → Bool
  | .ok _ => true
  | .error _ => false

instance {ε α : Type} [DecidableEq ε] [DecidableEq α] : DecidableEq (Except ε α) :=
  fun a b =>
    match a, b with
    | .error e1, .error e2 =>
      if h : e1 = e2 then .isTrue (congrArg _ h)
      else .isFalse (fun hc => h (Except.error.inj hc))
    | .ok a1, .ok a2 =>
      if h : a1 = a2 then .isTrue (congrArg _ h)
      else .isFalse (fun hc => h (Except.ok.inj hc))
    | .error _, .ok _ => .isFalse Except.noConfusion
    | .ok _, .error _ => .isFalse Except.noConfusion

/-! Re-serialization of processed parameters at the command-line boundary,
following dict_to_list (parameter_parser.py lines 247-308): a None value
serializes to the token None, a list value to its elements joined by commas
with each element rendered by str(), and any other value to its str()
rendering. -/

/-- Python str() of a list, used when a hyperparameter-mode list of lists is
re-serialized element by element. -/

def joinCommaSpace : List Str → Str
  | [] => []
  | [g] => g
  | g :: gs => g ++ ',' :: ' ' :: joinCommaSpace gs

/-- Python repr of a list of numbers. -/

def pyReprList {α : Type} (print : α → Str) (l : List α) : Str :=
  '[' :: (joinCommaSpace (l.map print) ++ [']'])

/-- dict_to_list value serialization for a numeric-list-typed parameter. -/

def serializeNumField {α : Type} (print : α → Str) : NumField α → Option Str
  | .nofield => some "None".data
  | .scalar a => some (print a)
  | .list l => some (joinChar ',' (l.map print))
  | .llist ll => some (joinChar ',' (ll.map (pyReprList print)))

/-- dict_to_list value serialization for a string-list-typed parameter. -/

def serializeStrField : StrField → Option Str
  | .nofield => some "None".data
  | .scalar s => some s
  | .list l => some (joinChar ',' l)

/-- Re-serialization of a processed parameter namespace into raw argparse
form, per dict_to_list. -/

def serializeParams (q : ProcParams) : RawParams :=
  { split_strategy := q.split_strategy,
    split_valid_frac := q.split_valid_frac,
    split_test_frac := q.split_test_frac,
    prediction_type := q.prediction_type,
    model_choice_score_type := some q.model_choice_score_type,
    hyperparam := q.hyperparam,
    layer_sizes := serializeNumField intToChars q.layer_sizes,
    dropouts := serializeNumField decToChars q.dropouts,
    weight_init_stddevs := serializeNumField decToChars q.weight_init_stddevs,
    bias_init_consts := serializeNumField decToChars q.bias_init_consts,
    learning_rate := serializeNumField decToChars q.learning_rate,
    response_cols := serializeStrField q.response_cols,
    model_type := serializeStrField q.model_type }

/-- A concrete valid flat configuration for the C5 witness. -/

def c5Config : RawParams :=
  { layer_sizes := some "16, 8".data,
    dropouts := some "0.25,0.5".data,
    response_cols := some "pIC50,logP".data }

/-- The processed output of c5Config. -/

def c5Out : ProcParams :=
  { split_strategy := "train_valid_test".data,
    split_valid_frac := ⟨1, 1⟩, split_test_frac := ⟨1, 1⟩,
    prediction_type := "regression".data,
    model_choice_score_type := "r2".data,
    hyperparam := false,
    layer_sizes := .list [16, 8],
    dropouts := .list [⟨25, 2⟩, ⟨5, 1⟩],
    weight_init_stddevs := .nofield,
    bias_init_consts := .nofield,
    learning_rate := .scalar ⟨5, 4⟩,
    response_cols := .list ["pIC50".data, "logP".data],
    model_type := .nofield }

/-- The C4 counterexample configuration: outside hyperparameter mode,
dropouts (two entries) and weight_init_stddevs (one entry) are present with
different lengths, and layer_sizes is absent. -/

def c4Config : RawParams :=
  { dropouts := some "0.1,0.2".data, weight_init_stddevs := some "0.3".data }

/-- A configuration on which the amended C4 theorem is witnessed. -/

def c4OkConfig : RawParams :=
  { layer_sizes := some "10,20".data, dropouts := some "0.3,0.4".data }

/-- The processed output of c4OkConfig. -/

def c4OkOut : ProcParams :=
  { split_strategy := "train_valid_test".data,
    split_valid_frac := ⟨1, 1⟩, split_test_frac := ⟨1, 1⟩,
    prediction_type := "regression".data,
    model_choice_score_type := "r2".data,
    hyperparam := false,
    layer_sizes := .list [10, 20],
    dropouts := .list [⟨3, 1⟩, ⟨4, 1⟩],
    weight_init_stddevs := .nofield,
    bias_init_consts := .nofield,
    learning_rate := .scalar ⟨5, 4⟩,
    response_cols := .nofield,
    model_type := .nofield }

/-! flatten_dict (parameter_parser.py lines 176-200): flattening of a nested
configuration mapping with last-seen-wins overwriting and a warning when an
already-stored key reappears with a different value.  A nested mapping is
modelled as an ordered association sequence (Python dicts iterate in
insertion order); the flat dictionary is an ordered association list with
in-place update, and the emitted warnings are collected in order. -/

mutual
inductive JVal (α : Type) where
  | leaf (v : α)
  | obj (fields : JObj α)
inductive JObj (α : Type) where
  | nil
  | cons (key : String) (val : JVal α) (rest : JObj α)
end

/-- Python key-in-dict / dict lookup on the flat dictionary. -/

def dictGet {α : Type} (m : List (String × α)) (k : String) : Option α :=
  match m with
  | [] => Option.none
  | (k0, v) :: rest => if k0 = k then some v else dictGet rest k

/-- Python dict assignment: update in place when the key is present (keeping
its position), append otherwise. -/

def dictSet {α : Type} (m : List (String × α)) (k : String) (v : α) :
    List (String × α) :=
  match m with
  | [] => [(k, v)]
  | (k0, v0) :: rest => if k0 = k then (k, v) :: rest else (k0, v0) :: dictSet rest k v

mutual
/-- Processing of one key/value pair by flatten_dict: recurse into nested
mappings, otherwise store the value, warning when the key is already present
with a different value (lines 191-199). -/
def flattenVal {α : Type} [DecidableEq α] (key : String) (v : JVal α)
    (m : List (String × α)) (w : List String) :
    List (String × α) × List String :=
  match v with
  | .leaf x =>
    match dictGet m key with
    | some old =>
      if old ≠ x then (dictSet m key x, w ++ [key]) else (dictSet m key x, w)
    | Option.none => (dictSet m key x, w)
  | .obj fields => flattenObj fields m w
/-- The iteration of flatten_dict over the items of a mapping. -/
def flattenObj {α : Type} [DecidableEq α] (fields : JObj α)
    (m : List (String × α)) (w : List String) :
    List (String × α) × List String :=
  match fields with
  | .nil => (m, w)
  | .cons k v rest =>
    let acc := flattenVal k v m w
    flattenObj rest acc.1 acc.2
end

/-- flatten_dict as called in the source: flatten_dict(config, dict()),
returning the flat dictionary together with the warned keys. -/

def flatten_dict {α : Type} [DecidableEq α] (inp : JObj α) :
    List (String × α) × List String :=
  flattenObj inp [] []

mutual
/-- The leaf entries below one key/value pair, in traversal order. -/
def leafVal {α : Type} (key : String) (v : JVal α) : List (String × α) :=
  match v with
  | .leaf x => [(key, x)]
  | .obj fields => leafObj fields
/-- The leaf entries of a nested mapping, in traversal order. -/
def leafObj {α : Type} (fields : JObj α) : List (String × α) :=
  match fields with
  | .nil => []
  | .cons k v rest => leafVal k v ++ leafObj rest
end

/-- The value of the last entry with the given key, if any. -/

def lastValue {α : Type} (l : List (String × α)) (k : String) : Option α :=
  match l with
  | [] => Option.none
  | (k0, v) :: rest =>
    match lastValue rest k with
    | some v2 => some v2
    | Option.none => if k0 = k then some v else Option.none

/-- The first option when present, the second otherwise. -/

def overrideWith {α : Type} (o fb : Option α) : Option α :=
  match o with
  | some v => some v
  | Option.none => fb

/-- Number of entries with the given key. -/

def countKey {α : Type} (l : List (String × α)) (k : String) : Nat :=
  (l.filter fun e => decide (e.1 = k)).length

/-- The values stored under one key, in traversal order. -/

def valuesOf {α : Type} (l : List (String × α)) (k : String) : List α :=
  (l.filter fun e => decide (e.1 = k)).map Prod.snd

/-- Whether the insertion fold of flatten_dict emits a warning for a key:
starting from the currently stored value, a warning fires at each incoming
value that differs from the stored one, which it then replaces (lines
193-196). -/

def warnsOn {α : Type} [DecidableEq α] (opt : Option α) : List α → Bool
  | [] => false
  | v :: rest =>
    (match opt with
     | some o => decide (o ≠ v)
     | Option.none => false) || warnsOn (some v) rest

/-- The stored value after folding a value sequence over an initial one. -/

def lastOr {α : Type} (opt : Option α) : List α → Option α
  | [] => opt
  | v :: rest => lastOr (some v) rest

/-- A nested configuration with the key a appearing at two nesting levels
with the same value 1. -/

def c6Dup : JObj Int :=
  .cons "a" (.leaf 1) (.cons "b" (.obj (.cons "a" (.leaf 1) .nil)) .nil)

/-- A nested configuration with the key a duplicated with differing
values. -/

def c6DupDiff : JObj Int :=
  .cons "a" (.leaf 1) (.cons "b" (.obj (.cons "a" (.leaf 2) .nil)) .nil)

/-! parse_command_line (parameter_parser.py lines 330-359) and the shell
entry guard (lines 1049-1056): the duplicate-argument check runs before any
argument parsing, so a duplicated double-dash token aborts regardless of the
parameter values; from the shell, the uncaught ValueError makes the process
exit non-zero. -/

/-- Whether pat is a prefix of s. -/

def strStarts : Str → Str → Bool
  | [], _ => true
  | _ :: _, [] => false
  | p :: ps, c :: cs => decide (p = c) && strStarts ps cs

/-- Python substring containment: pat in s. -/

def strHas (pat : Str) : Str → Bool
  | [] => strStarts pat []
  | c :: cs => strStarts pat (c :: cs) || strHas pat cs

/-- The double-dash containment test used to select argument tokens. -/

def hasDashDash (s : Str) : Bool := strHas "--".data s

/-- The tokens containing a double dash (just_args, line 351). -/

def justArgs (args : List Str) : List Str := args.filter hasDashDash

/-- Python list.count. -/

def countArg (args : List Str) (x : Str) : Nat :=
  (args.filter fun y => decide (y = x)).length

/-- The set of duplicated double-dash tokens (line 352). -/

def duplicatesOf (args : List Str) : List Str :=
  ((justArgs args).filter fun x => decide (1 < countArg (justArgs args) x)).dedup

/-- The ValueError message naming the duplicated keys (line 354); the Python
set repr is modelled as the space-joined duplicated tokens. -/

def dupMessage (args : List Str) : Str :=
  joinChar ' ' (duplicatesOf args) ++ " appears several times. ".data

/-- argparse float conversion. -/

def parseFloatArg (s : Str) : Except PyErr Dec :=
  match parseDec? s with
  | some d => .ok d
  | Option.none => .error (.exception "argparse: invalid float value")

/-- One option/value step of the argparse model for the modelled parameter
subset of get_parser (lines 361-880). -/

def applyOpt (p : RawParams) (key value : Str) : Except PyErr RawParams :=
  if key = "--split_strategy".data then
    if value = "train_valid_test".data ∨ value = "k_fold_cv".data then
      .ok { p with split_strategy := value }
    else .error (.exception "argparse: invalid choice")
  else if key = "--split_valid_frac".data then
    (parseFloatArg value).map fun d => { p with split_valid_frac := d }
  else if key = "--split_test_frac".data then
    (parseFloatArg value).map fun d => { p with split_test_frac := d }
  else if key = "--prediction_type".data then
    if value = "regression".data ∨ value = "classification".data then
      .ok { p with prediction_type := value }
    else .error (.exception "argparse: invalid choice")
  else if key = "--model_choice_score_type".data then
    .ok { p with model_choice_score_type := some value }
  else if key = "--layer_sizes".data then .ok { p with layer_sizes := some value }
  else if key = "--dropouts".data then .ok { p with dropouts := some value }
  else if key = "--weight_init_stddevs".data then
    .ok { p with weight_init_stddevs := some value }
  else if key = "--bias_init_consts".data then
    .ok { p with bias_init_consts := some value }
  else if key = "--learning_rate".data then .ok { p with learning_rate := some value }
  else if key = "--response_cols".data then .ok { p with response_cols := some value }
  else if key = "--model_type".data then .ok { p with model_type := some value }
  else .error (.exception "argparse: unrecognized argument")

/-- The argparse token-consumption loop: store_true flags take no value,
other options consume the following token. -/

def argparseLoop : List Str → RawParams → Except PyErr RawParams
  | [], p => .ok p
  | key :: rest, p =>
    if key = "--hyperparam".data then argparseLoop rest { p with hyperparam := true }
    else
      match rest with
      | [] => .error (.exception "argparse: expected one argument")
      | value :: rest2 => (applyOpt p key value).bind fun p2 => argparseLoop rest2 p2

/-- parser.parse_args on the modelled subset, starting from the argparse
defaults. -/

def get_parser_model (args : List Str) : Except PyErr RawParams :=
  argparseLoop args {}

/-- parse_command_line (lines 330-359): the duplicate check precedes
parsing, then parse_args and postprocess_args run. -/

def parse_command_line (args : List Str) : Except PyErr ProcParams :=
  if duplicatesOf args ≠ [] then
    .error (.valueError (String.mk (dupMessage args)))
  else (get_parser_model args).bind fun p => postprocessArgs p

/-- wrapper (lines 69-125) on a list input; the config-file branch reads a
file and the single-element branch calls eval, neither of which is
modelled: both are represented as failing runs, which the C7 claim does not
touch. -/

def wrapperModel (l : List Str) : Except PyErr ProcParams :=
  match l with
  | [] => .error (.exception "IndexError: list index out of range")
  | a :: rest =>
    if a = "--config_file".data ∨ a = "--config".data then
      .error (.exception "config file parsing not modelled: file input")
    else if rest = [] then
      .error (.exception "eval of single-element input not modelled")
    else parse_command_line l

/-- main (lines 1038-1045). -/

def mainModel (argument : List Str) : Except PyErr ProcParams :=
  match argument with
  | [] => .error (.exception "IndexError: list index out of range")
  | a :: _ =>
    if a = "--help".data ∨ a = "-h".data then parse_command_line argument
    else wrapperModel argument

/-- The module-level shell guard (lines 1049-1056): duplicate check over the
full argv, then main on argv without the script name. -/

def shellMain (argv : List Str) : Except PyErr ProcParams :=
  if duplicatesOf argv ≠ [] then
    .error (.valueError (String.mk (dupMessage argv)))
  else mainModel (argv.drop 1)

/-- Process exit code: 0 on success, 1 for an uncaught Python exception. -/

def shellExitCode (argv : List Str) : Nat :=
  match shellMain argv with
  | .ok _ => 0
  | .error _ => 1

/-- The C7 witness arguments: the token --model_type repeated. -/

def c7Args : List Str :=
  ["--model_type".data, "NN".data, "--model_type".data, "RF".data]

/-! model_wrapper.py: the factory create_model_wrapper (lines 38-77) and the
directory/best-epoch bookkeeping of the wrapper classes. The model objects
themselves (DeepChem, sklearn, xgboost) are external collaborators; the
embedding keeps the wrapper kind, the directory attributes set by the
constructors, and best_epoch. -/

/-- Strict order on exact decimals, used for float(xgb.__version__) < 0.9. -/

def Dec.lt (a b : Dec) : Bool :=
  decide (a.mant * ((10 ^ b.exp : Nat) : Int) < b.mant * ((10 ^ a.exp : Nat) : Int))

/-- The import-time environment of model_wrapper.py (lines 20-24): whether
importing xgboost succeeded, and the installed version as parsed by float. -/

structure XgbEnv where
  xgboost_supported : Bool
  xgb_version : Dec

/-- The three wrapper subclasses. -/

inductive WrapperKind
  | dcnn
  | dcrf
  | dcxgboost
deriving DecidableEq

/-- The directory and best-epoch attributes of a ModelWrapper; the model,
featurizer, logger and transformer attributes are external state not
modelled. -/

structure WrapperState where
  kind : WrapperKind
  output_dir : Str
  model_dir : Str
  best_model_dir : Option Str
  baseline_model_dir : Option Str
  best_epoch : Option Nat
deriving DecidableEq

/-- os.path.join for one component. -/

def pathJoin (a b : Str) : Str := a ++ '/' :: b

/-- ModelWrapper.__init__ (lines 99-125): model_dir is output_dir/model;
best_model_dir and baseline_model_dir are not yet set. -/

def ModelWrapper_init (kind : WrapperKind) (output_dir : Str) : WrapperState :=
  { kind := kind, output_dir := output_dir,
    model_dir := pathJoin output_dir "model".data,
    best_model_dir := Option.none, baseline_model_dir := Option.none,
    best_epoch := Option.none }

/-- ModelWrapper.setup_model_dirs (lines 129-141). -/

def setup_model_dirs (s : WrapperState) : WrapperState :=
  { s with best_model_dir := some (pathJoin s.output_dir "best_model".data),
           baseline_model_dir := some (pathJoin s.output_dir "baseline_epoch_model".data) }

/-- DCNNModelWrapper.__init__ (lines 410-560): the base constructor plus
construction of the DeepChem model, which is external and not modelled. -/

def DCNNModelWrapper_init (output_dir : Str) : WrapperState :=
  ModelWrapper_init WrapperKind.dcnn output_dir

/-- DCRFModelWrapper.__init__ (lines 1000-1026): best_model_dir, model_dir
and baseline_model_dir all become output_dir/best_model. -/

def DCRFModelWrapper_init (output_dir : Str) : WrapperState :=
  let base := ModelWrapper_init WrapperKind.dcrf output_dir
  let best := pathJoin output_dir "best_model".data
  { base with best_model_dir := some best, model_dir := best,
              baseline_model_dir := some best }

/-- DCxgboostModelWrapper.__init__ (lines 1282-1350): identical directory
assignments to the random forest wrapper. -/

def DCxgboostModelWrapper_init (output_dir : Str) : WrapperState :=
  let base := ModelWrapper_init WrapperKind.dcxgboost output_dir
  let best := pathJoin output_dir "best_model".data
  { base with best_model_dir := some best, model_dir := best,
              baseline_model_dir := some best }

/-- create_model_wrapper (lines 38-77): dispatch on params.model_type; the
xgboost branch checks importability and version before constructing
anything; any other model_type raises ValueError. -/

def create_model_wrapper (model_type : Str) (output_dir : Str) (env : XgbEnv) :
    Except PyErr WrapperState :=
  if model_type = "NN".data then .ok (DCNNModelWrapper_init output_dir)
  else if model_type = "RF".data then .ok (DCRFModelWrapper_init output_dir)
  else if model_type = "xgboost".data then
    if env.xgboost_supported = false then
      .error (.exception "Unable to import xgboost. xgboost package needs to be installed to use xgboost model.")
    else if Dec.lt env.xgb_version (Dec.mk 9 1) = true then
      .error (.exception "xgboost required to be >= 0.9 for GPU support.")
    else .ok (DCxgboostModelWrapper_init output_dir)
  else .error (.valueError (String.mk ("Unknown model_type ".data ++ model_type)))

/-- The external fit/save calls issued by the ensemble (RF/xgboost) train
methods, as an event trace. -/

inductive EnsembleFitEvent
  | fitFold (k : Nat)
  | fitCombined
  | save
deriving DecidableEq

/-- DCRFModelWrapper.train (lines 1028-1088): best_epoch is cleared, one fit
per fold, a combined refit only when num_folds > 1, one save, and finally
best_epoch = 0; no directory attribute is touched. -/

def DCRFModelWrapper_train (s : WrapperState) (num_folds : Nat) :
    WrapperState × List EnsembleFitEvent :=
  let s1 := { s with best_epoch := Option.none }
  let foldEvents := (List.range num_folds).map EnsembleFitEvent.fitFold
  let refitEvents :=
    if 1 < num_folds then [EnsembleFitEvent.fitCombined] else []
  ({ s1 with best_epoch := some 0 },
   foldEvents ++ refitEvents ++ [EnsembleFitEvent.save])

/-- DCxgboostModelWrapper.train (lines 1352-1411): the same control
structure as the random forest train. -/

def DCxgboostModelWrapper_train (s : WrapperState) (num_folds : Nat) :
    WrapperState × List EnsembleFitEvent :=
  let s1 := { s with best_epoch := Option.none }
  let foldEvents := (List.range num_folds).map EnsembleFitEvent.fitFold
  let refitEvents :=
    if 1 < num_folds then [EnsembleFitEvent.fitCombined] else []
  ({ s1 with best_epoch := some 0 },
   foldEvents ++ refitEvents ++ [EnsembleFitEvent.save])

/-! DCNNModelWrapper.train (model_wrapper.py lines 624-731): fold loop,
epoch loop with the cooperative 18-hour (64800 s) time check, per-epoch
scoring, argmax epoch selection, and the two-checkpoint refit. The external
fit/predict/accumulate services are collaborators: the embedding records
the fit calls issued and consumes the per-epoch aggregated validation
score as an oracle. Wall-clock time is an oracle from the index of the
time check to the elapsed seconds at that check. -/

/-- The time condition of line 679: on the LC system, more than 64800
elapsed seconds. -/

def timeExceeded (sys : Str) (t : Nat) : Bool :=
  decide (sys = "LC".data) && decide (64800 < t)

/-- The epoch loop of one fold (lines 675-693): todo is the range of the
max_epochs value read at loop entry; each iteration first performs the time
check (consuming one check index) and on exceedance assigns max_epochs := ei
and breaks, otherwise issues one single-epoch fit. Returns (max_epochs
after the loop, next check index, fit calls as fold/epoch pairs). The
predict/accumulate calls and the restore flag of the in-loop fits do not
affect any claim and are not recorded. -/

def nnEpochLoop (sys : Str) (elapsed : Nat → Nat) (k : Nat) :
    List Nat → Nat → Nat → Nat × Nat × List (Nat × Nat)
  | [], maxE, c => (maxE, c, [])
  | ei :: rest, maxE, c =>
    if timeExceeded sys (elapsed c) = true then (ei, c + 1, [])
    else
      let r := nnEpochLoop sys elapsed k rest maxE (c + 1)
      (r.1, r.2.1, (k, ei) :: r.2.2)

/-- The fold loop (lines 668-696): each fold runs the epoch loop over
range(max_epochs) with the current, possibly already truncated,
max_epochs. -/

def nnFoldLoop (sys : Str) (elapsed : Nat → Nat) :
    List Nat → Nat → Nat → Nat × Nat × List (Nat × Nat)
  | [], maxE, c => (maxE, c, [])
  | k :: ks, maxE, c =>
    let r := nnEpochLoop sys elapsed k (List.range maxE) maxE c
    let r2 := nnFoldLoop sys elapsed ks r.1 r.2.1
    (r2.1, r2.2.1, r.2.2 ++ r2.2.2)

/-- np.argmax on the score array (line 704): index of the first maximal
entry. -/

def npArgmax : List Dec → Nat
  | [] => 0
  | [_] => 0
  | x :: y :: xs =>
    if Dec.le ((y :: xs).getD (npArgmax (y :: xs)) (Dec.mk 0 0)) x = true then 0
    else npArgmax (y :: xs) + 1

/-- The external calls of the refit block (lines 706-731), as a trace. -/

inductive NNEvent
  | recreate
  | refitFit (nb : Nat) (restore : Bool)
  | save
  | copy (dir : Str)
deriving DecidableEq

/-- The refit block (lines 708-731): train a fresh model for
min(baseline_epoch, best_epoch) epochs, save and copy it to the directory
for the smaller epoch, then, if needed, continue (restore=True) for the
remaining epochs to reach the larger one, save, and copy to the other
directory. -/

def nnRefit (best_epoch baseline_epoch : Nat)
    (best_model_dir baseline_model_dir : Str) : List NNEvent :=
  let min_epoch := min baseline_epoch best_epoch
  let max_epoch := max baseline_epoch best_epoch
  let min_epoch_dir := if best_epoch ≤ baseline_epoch then best_model_dir else baseline_model_dir
  let max_epoch_dir := if best_epoch ≤ baseline_epoch then baseline_model_dir else best_model_dir
  [NNEvent.recreate, NNEvent.refitFit min_epoch false, NNEvent.save,
   NNEvent.copy min_epoch_dir] ++
  (if min_epoch < max_epoch then
    [NNEvent.refitFit (max_epoch - min_epoch) true, NNEvent.save] else []) ++
  [NNEvent.copy max_epoch_dir]

/-- Total fit increments of a refit trace. -/

def fitTotal : List NNEvent → Nat
  | [] => 0
  | NNEvent.refitFit nb _ :: rest => nb + fitTotal rest
  | _ :: rest => fitTotal rest

/-- The copy destinations of a refit trace, in order. -/

def copyDirs : List NNEvent → List Str
  | [] => []
  | NNEvent.copy d :: rest => d :: copyDirs rest
  | _ :: rest => copyDirs rest

/-- The epochs fitted for one fold, extracted from the fit-call trace. -/

def fitsOfFold (fits : List (Nat × Nat)) (k : Nat) : List Nat :=
  (fits.filter fun p => decide (p.1 = k)).map Prod.snd

/-- The observable outcome of one DCNNModelWrapper.train run. -/

structure NNRunResult where
  max_epochs : Nat
  checks : Nat
  epochFits : List (Nat × Nat)
  best_epoch : Nat
  refit : List NNEvent

/-- DCNNModelWrapper.train (lines 624-731): the score array is allocated
with the original max_epochs (np.zeros, line 650) and only the entries
below the possibly truncated max_epochs are filled by the scoring loop
(lines 698-703), the rest staying 0.0; best_epoch = argmax over that array
(line 704); then the refit block runs. -/

def DCNNModelWrapper_train (sys : Str) (elapsed : Nat → Nat) (score : Nat → Dec)
    (max_epochs baseline_epoch num_folds : Nat) (output_dir : Str) : NNRunResult :=
  let r := nnFoldLoop sys elapsed (List.range num_folds) max_epochs 0
  let scoresArr := (List.range r.1).map score ++
    List.replicate (max_epochs - r.1) (Dec.mk 0 0)
  let best := npArgmax scoresArr
  { max_epochs := r.1, checks := r.2.1, epochFits := r.2.2, best_epoch := best,
    refit := nnRefit best baseline_epoch
      (pathJoin output_dir "best_model".data)
      (pathJoin output_dir "baseline_epoch_model".data) }

/-- Modelled from the spec: the performance accumulator (an external
collaborator, perf_data) aggregates the per-epoch validation model-choice
score across folds as the fold average. -/

def foldAggregatedScore (foldScores : List ℚ) : ℚ :=
  foldScores.sum / foldScores.length

/-- The C1 witness per-epoch scores 0.1, 0.5, 0.3 as seen by argmax. -/

def c1Score : Nat → Dec
  | 0 => Dec.mk 1 1
  | 1 => Dec.mk 5 1
  | 2 => Dec.mk 3 1
  | _ => Dec.mk 0 0

/-- The C1 witness per-fold validation scores for a 3-fold run whose fold
averages are 0.1, 0.5, 0.3. -/

def c1FScores : Nat → List ℚ
  | 0 => [1 / 10, 1 / 10, 1 / 10]
  | 1 => [1 / 2, 1 / 2, 1 / 2]
  | 2 => [3 / 10, 3 / 10, 3 / 10]
  | _ => []

/-- The C8 witness clock: the third time check happens past the ceiling. -/
def c8Elapsed : Nat → Nat := fun c => if 2 ≤ c then 70000 else 0

theorem splitOnChar_ne_nil (sep : Char) (s : Str) : splitOnChar sep s ≠ [] := by
  cases s with
  | nil => simp [splitOnChar]
  | cons c cs =>
    simp only [splitOnChar]
    split
    · simp
    · split <;> simp

theorem splitOnChar_no_sep (sep : Char) (s : Str) (h : sep ∉ s) :
    splitOnChar sep s = [s] := by
  induction s with
  | nil => rfl
  | cons c cs ih =>
    have hc : c ≠ sep := fun hceq => h (hceq ▸ List.mem_cons_self c cs)
    have hcs : sep ∉ cs := fun hm => h (List.mem_cons_of_mem c hm)
    simp only [splitOnChar]
    rw [ih hcs]
    simp [hc]

theorem splitOnChar_append (sep : Char) (xs ys : Str) (h : sep ∉ xs) :
    splitOnChar sep (xs ++ sep :: ys) = xs :: splitOnChar sep ys := by
  induction xs with
  | nil =>
    simp only [List.nil_append, splitOnChar]
    cases hys : splitOnChar sep ys with
    | nil => exact absurd hys (splitOnChar_ne_nil sep ys)
    | cons g gs => simp
  | cons c cs ih =>
    have hc : c ≠ sep := fun hceq => h (hceq ▸ List.mem_cons_self c cs)
    have hcs : sep ∉ cs := fun hm => h (List.mem_cons_of_mem c hm)
    simp only [List.cons_append, splitOnChar, List.append_eq]
    rw [ih hcs]
    simp [hc]

theorem splitOnChar_joinChar (sep : Char) (gs : List Str) (hne : gs ≠ [])
    (h : ∀ g ∈ gs, sep ∉ g) :
    splitOnChar sep (joinChar sep gs) = gs := by
  induction gs with
  | nil => exact absurd rfl hne
  | cons g rest ih =>
    cases rest with
    | nil =>
      simp only [joinChar]
      exact splitOnChar_no_sep sep g (h g (List.mem_cons_self g []))
    | cons g2 rest2 =>
      have hg : sep ∉ g := h g (List.mem_cons_self g _)
      have hrest : ∀ x ∈ g2 :: rest2, sep ∉ x := fun x hx => h x (List.mem_cons_of_mem g hx)
      simp only [joinChar]
      rw [splitOnChar_append sep g _ hg, ih (by simp) hrest]

theorem joinChar_splitOnChar (sep : Char) (s : Str) :
    joinChar sep (splitOnChar sep s) = s := by
  induction s with
  | nil => rfl
  | cons c cs ih =>
    simp only [splitOnChar]
    rcases h : splitOnChar sep cs with _ | ⟨g, gs⟩
    · exact absurd h (splitOnChar_ne_nil sep cs)
    · rw [h] at ih
      by_cases hc : c = sep
      · simp only [if_pos hc]
        show [] ++ sep :: joinChar sep (g :: gs) = c :: cs
        rw [List.nil_append, ih, ← hc]
      · simp only [if_neg hc]
        cases gs with
        | nil =>
          show c :: g = c :: cs
          simp only [joinChar] at ih
          rw [ih]
        | cons g2 gs2 =>
          show (c :: g) ++ sep :: joinChar sep (g2 :: gs2) = c :: cs
          simp only [joinChar] at ih
          rw [List.cons_append]
          exact congrArg (c :: ·) ih

theorem mem_of_mem_splitOnChar (sep : Char) (s : Str) (g : Str)
    (hg : g ∈ splitOnChar sep s) : sep ∉ g := by
  induction s generalizing g with
  | nil =>
    simp only [splitOnChar, List.mem_singleton] at hg
    subst hg; simp
  | cons c cs ih =>
    simp only [splitOnChar] at hg
    rcases h : splitOnChar sep cs with _ | ⟨g0, gs⟩
    · exact absurd h (splitOnChar_ne_nil sep cs)
    · rw [h] at hg
      simp only at hg
      by_cases hc : c = sep
      · rw [if_pos hc] at hg
        rcases List.mem_cons.1 hg with h1 | h2
        · subst h1; simp
        · exact ih g (h ▸ h2)
      · rw [if_neg hc] at hg
        rcases List.mem_cons.1 hg with h1 | h2
        · subst h1
          intro hmem
          rcases List.mem_cons.1 hmem with h3 | h4
          · exact hc h3.symm
          · exact ih g0 (h ▸ List.mem_cons_self g0 gs) h4
        · exact ih g (h ▸ List.mem_cons_of_mem g0 h2)

theorem dropWhile_eq_self_of_not {p : Char → Bool} (l : Str)
    (h : ∀ c ∈ l, p c = false) : l.dropWhile p = l := by
  cases l with
  | nil => rfl
  | cons c cs => simp [List.dropWhile, h c (List.mem_cons_self c cs)]

theorem stripChars_of_no_space (s : Str) (h : ∀ c ∈ s, isPySpace c = false) :
    stripChars s = s := by
  unfold stripChars
  rw [dropWhile_eq_self_of_not s h,
      dropWhile_eq_self_of_not s.reverse (fun c hc => h c (List.mem_reverse.1 hc)),
      List.reverse_reverse]

theorem digitVal?_digitChar (d : Nat) (h : d < 10) :
    digitVal? (Nat.digitChar d) = some d := by
  interval_cases d <;> decide

theorem digitChar_bounds (d : Nat) (h : d < 10) :
    '0' ≤ Nat.digitChar d ∧ Nat.digitChar d ≤ '9' := by
  interval_cases d <;> decide

theorem natToChars_ne_nil (n : Nat) : natToChars n ≠ [] := by
  rw [natToChars]
  split <;> simp

theorem mem_natToChars (n : Nat) (c : Char) (hc : c ∈ natToChars n) :
    '0' ≤ c ∧ c ≤ '9' := by
  induction n using Nat.strong_induction_on with
  | _ n ih =>
    rw [natToChars] at hc
    by_cases h : n < 10
    · rw [if_pos h] at hc
      simp only [List.mem_singleton] at hc
      subst hc
      exact digitChar_bounds n h
    · rw [if_neg h] at hc
      rcases List.mem_append.1 hc with h1 | h2
      · exact ih (n / 10) (Nat.div_lt_self (by omega) (by norm_num)) h1
      · simp only [List.mem_singleton] at h2
        subst h2
        exact digitChar_bounds (n % 10) (Nat.mod_lt n (by norm_num))

theorem charsToNatCore_append_digit (xs : Str) (c : Char) :
    charsToNatCore (xs ++ [c]) =
      (charsToNatCore xs).bind fun a => (digitVal? c).map fun d => 10 * a + d := by
  simp [charsToNatCore, List.foldl_append]

theorem charsToNatCore_natToChars (n : Nat) :
    charsToNatCore (natToChars n) = some n := by
  induction n using Nat.strong_induction_on with
  | _ n ih =>
    rw [natToChars]
    by_cases h : n < 10
    · rw [if_pos h]
      simp [charsToNatCore, digitVal?_digitChar n h]
    · rw [if_neg h]
      rw [charsToNatCore_append_digit,
          ih (n / 10) (Nat.div_lt_self (by omega) (by norm_num)),
          digitVal?_digitChar (n % 10) (Nat.mod_lt n (by norm_num))]
      show some (10 * (n / 10) + n % 10) = some n
      exact congrArg some (Nat.div_add_mod n 10)

theorem charsToNat?_natToChars (n : Nat) :
    charsToNat? (natToChars n) = some n := by
  rcases h : natToChars n with _ | ⟨c, t⟩
  · exact absurd h (natToChars_ne_nil n)
  · show charsToNatCore (c :: t) = some n
    rw [← h]
    exact charsToNatCore_natToChars n

theorem charsToNatCore_zero_cons (t : Str) :
    charsToNatCore ('0' :: t) = charsToNatCore t := by
  have h0 : digitVal? '0' = some 0 := by decide
  simp [charsToNatCore, List.foldl_cons, h0]

theorem charsToNatCore_replicate_zero (k : Nat) (t : Str) :
    charsToNatCore (List.replicate k '0' ++ t) = charsToNatCore t := by
  induction k with
  | zero => simp
  | succ k ih =>
    rw [List.replicate_succ, List.cons_append, charsToNatCore_zero_cons, ih]

theorem natToChars_length_le (n k : Nat) (h1 : 1 ≤ k) (h2 : n < 10 ^ k) :
    (natToChars n).length ≤ k := by
  induction n using Nat.strong_induction_on generalizing k with
  | _ n ih =>
    rw [natToChars]
    by_cases h : n < 10
    · rw [if_pos h]; simpa using h1
    · rw [if_neg h]
      have hk2 : 2 ≤ k := by
        by_contra hlt
        have : k = 1 := by omega
        subst this
        simp at h2
        omega
      have hdiv : n / 10 < 10 ^ (k - 1) := by
        rw [Nat.div_lt_iff_lt_mul (by norm_num : 0 < 10)]
        have : 10 ^ (k - 1) * 10 = 10 ^ k := by
          rw [← pow_succ]
          congr 1
          omega
        omega
      have := ih (n / 10) (Nat.div_lt_self (by omega) (by norm_num)) (k - 1) (by omega) hdiv
      simp only [List.length_append, List.length_singleton]
      omega

theorem charsToInt?_natToChars (a : Nat) :
    charsToInt? (natToChars a) = some (a : Int) := by
  rcases h : natToChars a with _ | ⟨c, t⟩
  · exact absurd h (natToChars_ne_nil a)
  · have hd : '0' ≤ c ∧ c ≤ '9' := mem_natToChars a c (h ▸ List.mem_cons_self c t)
    have hminus : c ≠ '-' := by rintro rfl; revert hd; decide
    have hplus : c ≠ '+' := by rintro rfl; revert hd; decide
    show charsToInt? (c :: t) = some (a : Int)
    simp only [charsToInt?, if_neg hminus, if_neg hplus]
    rw [← h, charsToNat?_natToChars]
    rfl

theorem charsToInt?_intToChars (i : Int) :
    charsToInt? (intToChars i) = some i := by
  unfold intToChars
  by_cases h : i < 0
  · rw [if_pos h]
    simp only [charsToInt?, if_pos rfl]
    rw [charsToNat?_natToChars]
    show some (-(i.natAbs : Int)) = some i
    congr 1
    omega
  · rw [if_neg h]
    rw [charsToInt?_natToChars]
    simp only [Option.some.injEq]
    omega

theorem dot_not_mem_natToChars (a : Nat) : '.' ∉ natToChars a := by
  intro hm
  exact absurd (mem_natToChars a '.' hm) (by decide)

theorem charsToNat?_eq_core (cs : Str) (h : cs ≠ []) :
    charsToNat? cs = charsToNatCore cs := by
  cases cs with
  | nil => exact absurd rfl h
  | cons c t => rfl

theorem parseUnsignedDec?_one (cs w : Str) (hsplit : splitOnChar '.' cs = [w]) :
    parseUnsignedDec? cs = (charsToNat? w).map fun (n : Nat) => (⟨(n : Int), 0⟩ : Dec) := by
  rw [parseUnsignedDec?.eq_def, hsplit]

theorem parseUnsignedDec?_two (cs w f : Str) (hw : w ≠ []) (hf : f ≠ [])
    (hsplit : splitOnChar '.' cs = [w, f]) :
    parseUnsignedDec? cs =
      (charsToNat? w).bind fun (wn : Nat) =>
        (charsToNat? f).map fun (fn : Nat) =>
          (⟨(wn : Int) * 10 ^ f.length + (fn : Int), f.length⟩ : Dec) := by
  rw [parseUnsignedDec?.eq_def, hsplit]
  rcases w with _ | ⟨cw, tw⟩
  · exact absurd rfl hw
  rcases f with _ | ⟨cf, tf⟩
  · exact absurd rfl hf
  rfl

theorem parseDec?_minus (rest : Str) :
    parseDec? ('-' :: rest) =
      (parseUnsignedDec? rest).map fun d => (⟨-d.mant, d.exp⟩ : Dec) := by
  simp [parseDec?]

theorem parseDec?_of_digit_head (c : Char) (rest : Str) (h1 : c ≠ '-') (h2 : c ≠ '+') :
    parseDec? (c :: rest) = parseUnsignedDec? (c :: rest) := by
  simp only [parseDec?]
  rw [if_neg h1, if_neg h2]

theorem parseUnsignedDec?_natToChars (a : Nat) :
    parseUnsignedDec? (natToChars a) = some ⟨(a : Int), 0⟩ := by
  rw [parseUnsignedDec?_one _ _ (splitOnChar_no_sep '.' (natToChars a) (dot_not_mem_natToChars a)),
    charsToNat?_natToChars]
  rfl

theorem parseDec?_natToChars (a : Nat) :
    parseDec? (natToChars a) = some ⟨(a : Int), 0⟩ := by
  rcases h : natToChars a with _ | ⟨c, t⟩
  · exact absurd h (natToChars_ne_nil a)
  · have hd : '0' ≤ c ∧ c ≤ '9' := mem_natToChars a c (h ▸ List.mem_cons_self c t)
    have hminus : c ≠ '-' := by rintro rfl; revert hd; decide
    have hplus : c ≠ '+' := by rintro rfl; revert hd; decide
    rw [parseDec?_of_digit_head c t hminus hplus, ← h, parseUnsignedDec?_natToChars]

theorem parseUnsignedDec?_frac (ip fp e : Nat) (he : 1 ≤ e) (hfp : fp < 10 ^ e) :
    parseUnsignedDec?
        (natToChars ip ++ '.' ::
          (List.replicate (e - (natToChars fp).length) '0' ++ natToChars fp)) =
      some ⟨(ip : Int) * 10 ^ e + (fp : Int), e⟩ := by
  set frac := List.replicate (e - (natToChars fp).length) '0' ++ natToChars fp with hfracdef
  have hfl : (natToChars fp).length ≤ e := natToChars_length_le fp e he hfp
  have hfdsne : natToChars fp ≠ [] := natToChars_ne_nil fp
  have hfraclen : frac.length = e := by
    rw [hfracdef]
    simp only [List.length_append, List.length_replicate]
    have : 1 ≤ (natToChars fp).length := by
      cases hn : natToChars fp with
      | nil => exact absurd hn hfdsne
      | cons a b => simp
    omega
  have hfracne : frac ≠ [] := by
    intro h0
    rw [h0] at hfraclen
    simp at hfraclen
    omega
  have hfracnodot : '.' ∉ frac := by
    intro hm
    rw [hfracdef] at hm
    rcases List.mem_append.1 hm with h1 | h2
    · exact absurd (List.eq_of_mem_replicate h1) (by decide)
    · exact dot_not_mem_natToChars fp h2
  have hsplit : splitOnChar '.' (natToChars ip ++ '.' :: frac) = [natToChars ip, frac] := by
    rw [splitOnChar_append '.' _ _ (dot_not_mem_natToChars ip),
        splitOnChar_no_sep '.' frac hfracnodot]
  have hfracval : charsToNat? frac = some fp := by
    rw [charsToNat?_eq_core frac hfracne, hfracdef, charsToNatCore_replicate_zero,
        charsToNatCore_natToChars]
  rw [parseUnsignedDec?_two _ _ _ (natToChars_ne_nil ip) hfracne hsplit,
      charsToNat?_natToChars, hfracval]
  show some (⟨(ip : Int) * 10 ^ frac.length + (fp : Int), frac.length⟩ : Dec) = _
  rw [hfraclen]

theorem parseDec?_decToChars (d : Dec) : parseDec? (decToChars d) = some d := by
  have heta : (⟨d.mant, d.exp⟩ : Dec) = d := rfl
  unfold decToChars
  by_cases hexp : d.exp = 0
  · rw [if_pos hexp]
    unfold intToChars
    by_cases hm : d.mant < 0
    · rw [if_pos hm, parseDec?_minus, parseUnsignedDec?_natToChars]
      show some (⟨-(d.mant.natAbs : Int), 0⟩ : Dec) = some d
      rw [show -(d.mant.natAbs : Int) = d.mant by omega, ← hexp, heta]
    · rw [if_neg hm, parseDec?_natToChars]
      rw [show ((d.mant.natAbs : Int)) = d.mant by omega, ← hexp, heta]
  · rw [if_neg hexp]
    have he : 1 ≤ d.exp := by omega
    have hfp : d.mant.natAbs % 10 ^ d.exp < 10 ^ d.exp :=
      Nat.mod_lt _ (pow_pos (by norm_num) _)
    have h0 : 10 ^ d.exp * (d.mant.natAbs / 10 ^ d.exp) + d.mant.natAbs % 10 ^ d.exp
        = d.mant.natAbs := Nat.div_add_mod _ _
    have h1 : ((10 : Int) ^ d.exp * ((d.mant.natAbs / 10 ^ d.exp : Nat) : Int) +
        ((d.mant.natAbs % 10 ^ d.exp : Nat) : Int)) = (d.mant.natAbs : Int) := by
      exact_mod_cast h0
    have hval : ((d.mant.natAbs / 10 ^ d.exp : Nat) : Int) * 10 ^ d.exp +
        ((d.mant.natAbs % 10 ^ d.exp : Nat) : Int) = (d.mant.natAbs : Int) := by
      linear_combination h1
    by_cases hm : d.mant < 0
    · rw [if_pos hm]
      show parseDec? ('-' ::
          (natToChars (d.mant.natAbs / 10 ^ d.exp) ++ '.' ::
            (List.replicate (d.exp - (natToChars (d.mant.natAbs % 10 ^ d.exp)).length) '0' ++
              natToChars (d.mant.natAbs % 10 ^ d.exp)))) = some d
      rw [parseDec?_minus, parseUnsignedDec?_frac _ _ _ he hfp]
      show some (⟨-(((d.mant.natAbs / 10 ^ d.exp : Nat) : Int) * 10 ^ d.exp +
          ((d.mant.natAbs % 10 ^ d.exp : Nat) : Int)), d.exp⟩ : Dec) = some d
      rw [hval, show -((d.mant.natAbs : Int)) = d.mant by omega, heta]
    · rw [if_neg hm, List.nil_append]
      rcases hw : natToChars (d.mant.natAbs / 10 ^ d.exp) with _ | ⟨c, t⟩
      · exact absurd hw (natToChars_ne_nil _)
      have hd : '0' ≤ c ∧ c ≤ '9' :=
        mem_natToChars _ c (hw ▸ List.mem_cons_self c t)
      have hminus : c ≠ '-' := by rintro rfl; revert hd; decide
      have hplus : c ≠ '+' := by rintro rfl; revert hd; decide
      rw [List.cons_append, parseDec?_of_digit_head c _ hminus hplus,
        ← List.cons_append, ← hw, parseUnsignedDec?_frac _ _ _ he hfp]
      show some (⟨((d.mant.natAbs / 10 ^ d.exp : Nat) : Int) * 10 ^ d.exp +
          ((d.mant.natAbs % 10 ^ d.exp : Nat) : Int), d.exp⟩ : Dec) = some d
      rw [hval, show ((d.mant.natAbs : Int)) = d.mant by omega, heta]

theorem mem_intToChars (i : Int) (c : Char) (hc : c ∈ intToChars i) :
    c = '-' ∨ ('0' ≤ c ∧ c ≤ '9') := by
  unfold intToChars at hc
  by_cases h : i < 0
  · rw [if_pos h] at hc
    rcases List.mem_cons.1 hc with h1 | h2
    · exact Or.inl h1
    · exact Or.inr (mem_natToChars _ c h2)
  · rw [if_neg h] at hc
    exact Or.inr (mem_natToChars _ c hc)

theorem mem_decToChars (d : Dec) (c : Char) (hc : c ∈ decToChars d) :
    c = '-' ∨ c = '.' ∨ ('0' ≤ c ∧ c ≤ '9') := by
  unfold decToChars at hc
  by_cases hexp : d.exp = 0
  · rw [if_pos hexp] at hc
    rcases mem_intToChars _ c hc with h | h
    · exact Or.inl h
    · exact Or.inr (Or.inr h)
  · rw [if_neg hexp] at hc
    rcases List.mem_append.1 hc with h1 | h2
    · rcases List.mem_append.1 h1 with h3 | h4
      · by_cases hm : d.mant < 0
        · rw [if_pos hm] at h3
          simp only [List.mem_singleton] at h3
          exact Or.inl h3
        · rw [if_neg hm] at h3
          simp at h3
      · exact Or.inr (Or.inr (mem_natToChars _ c h4))
    · rcases List.mem_cons.1 h2 with h5 | h6
      · exact Or.inr (Or.inl h5)
      · rcases List.mem_append.1 h6 with h7 | h8
        · rw [List.eq_of_mem_replicate h7]
          exact Or.inr (Or.inr (by decide))
        · exact Or.inr (Or.inr (mem_natToChars _ c h8))

theorem intToChars_head (i : Int) (c : Char) (t : Str) (h : intToChars i = c :: t) :
    c = '-' ∨ ('0' ≤ c ∧ c ≤ '9') := by
  unfold intToChars at h
  by_cases hneg : i < 0
  · rw [if_pos hneg] at h
    exact Or.inl (List.cons.injEq .. ▸ h).1.symm
  · rw [if_neg hneg] at h
    exact Or.inr (mem_natToChars _ c (h ▸ List.mem_cons_self c t))

theorem decToChars_head (d : Dec) (c : Char) (t : Str) (h : decToChars d = c :: t) :
    c = '-' ∨ ('0' ≤ c ∧ c ≤ '9') := by
  unfold decToChars at h
  by_cases hexp : d.exp = 0
  · rw [if_pos hexp] at h
    exact intToChars_head d.mant c t h
  · rw [if_neg hexp] at h
    by_cases hm : d.mant < 0
    · rw [if_pos hm] at h
      simp only [List.cons_append, List.cons.injEq] at h
      exact Or.inl h.1.symm
    · rw [if_neg hm, List.nil_append] at h
      rcases hw : natToChars (d.mant.natAbs / 10 ^ d.exp) with _ | ⟨c0, t0⟩
      · exact absurd hw (natToChars_ne_nil _)
      · rw [hw, List.cons_append, List.cons.injEq] at h
        rw [← h.1]
        exact Or.inr (mem_natToChars _ c0 (hw ▸ List.mem_cons_self c0 t0))

theorem Dec.le_iff (a b : Dec) : Dec.le a b = true ↔ a.toRat ≤ b.toRat := by
  unfold Dec.le Dec.toRat
  rw [decide_eq_true_eq,
    div_le_div_iff₀ (by positivity : (0 : ℚ) < 10 ^ a.exp) (by positivity : (0 : ℚ) < 10 ^ b.exp)]
  constructor
  · intro h
    have h2 : ((a.mant * ((10 ^ b.exp : Nat) : Int) : Int) : ℚ) ≤
        ((b.mant * ((10 ^ a.exp : Nat) : Int) : Int) : ℚ) := by exact_mod_cast h
    push_cast at h2
    linarith
  · intro h
    have h2 : ((a.mant * ((10 ^ b.exp : Nat) : Int) : Int) : ℚ) ≤
        ((b.mant * ((10 ^ a.exp : Nat) : Int) : Int) : ℚ) := by
      push_cast
      linarith
    exact_mod_cast h2

theorem ebind_err {ε α β : Type} (e : ε) (f : α → Except ε β) :
    Except.bind (Except.error e) f = Except.error e := rfl

theorem ebind_ok {ε α β : Type} (a : α) (f : α → Except ε β) :
    Except.bind (Except.ok a) f = f a := rfl

theorem lenMismatch_eq_len (f : NumField Dec) (n : Nat)
    (h : lenMismatch f n = false) (dl : List Dec) (hf : f = .list dl) :
    dl.length = n := by
  subst hf
  unfold lenMismatch numFieldLen? at h
  simp only [decide_eq_false_iff_not, ne_eq, not_not] at h
  exact h

theorem checkLayerLengths_ok (ls : NumField Int) (dp wi bi : NumField Dec)
    (h : checkLayerLengths ls dp wi bi = .ok ()) (l : List Int)
    (hls : ls = .list l) :
    lenMismatch dp l.length = false ∧ lenMismatch wi l.length = false ∧
      lenMismatch bi l.length = false := by
  subst hls
  unfold checkLayerLengths at h
  simp only [numFieldLen?] at h
  by_cases hc : (lenMismatch dp l.length || lenMismatch wi l.length ||
      lenMismatch bi l.length) = true
  · rw [if_pos hc] at h
    cases h
  · simp only [Bool.or_eq_true, not_or, Bool.not_eq_true] at hc
    exact ⟨hc.1.1, hc.1.2, hc.2⟩

theorem map_id_of_mem {f : Char → Char} (s : Str) (h : ∀ c ∈ s, f c = c) :
    s.map f = s := by
  induction s with
  | nil => rfl
  | cons c cs ih =>
    simp only [List.map_cons, h c (List.mem_cons_self c cs),
      ih fun x hx => h x (List.mem_cons_of_mem c hx)]

theorem numlike_char_props (c : Char) (h : c = '-' ∨ c = '.' ∨ ('0' ≤ c ∧ c ≤ '9')) :
    c ≠ ',' ∧ isPySpace c = false ∧ c ≠ '@' ∧ c ≠ 'n' ∧ c ≠ 'N' := by
  rcases h with rfl | rfl | ⟨h1, h2⟩
  · decide
  · decide
  · refine ⟨?_, ?_, ?_, ?_, ?_⟩
    · rintro rfl; exact absurd h1 (by decide)
    · have h3 : c ≠ ' ' := by rintro rfl; exact absurd h1 (by decide)
      have h4 : c ≠ '\t' := by rintro rfl; exact absurd h1 (by decide)
      have h5 : c ≠ '\n' := by rintro rfl; exact absurd h1 (by decide)
      have h6 : c ≠ '\r' := by rintro rfl; exact absurd h1 (by decide)
      simp [isPySpace, h3, h4, h5, h6]
    · rintro rfl; exact absurd h2 (by decide)
    · rintro rfl; exact absurd h2 (by decide)
    · rintro rfl; exact absurd h2 (by decide)

theorem intToChars_char_props (i : Int) (c : Char) (h : c ∈ intToChars i) :
    c ≠ ',' ∧ isPySpace c = false ∧ c ≠ '@' ∧ c ≠ 'n' ∧ c ≠ 'N' := by
  refine numlike_char_props c ?_
  rcases mem_intToChars i c h with h1 | h1
  · exact Or.inl h1
  · exact Or.inr (Or.inr h1)

theorem decToChars_char_props (d : Dec) (c : Char) (h : c ∈ decToChars d) :
    c ≠ ',' ∧ isPySpace c = false ∧ c ≠ '@' ∧ c ≠ 'n' ∧ c ≠ 'N' :=
  numlike_char_props c (mem_decToChars d c h)

theorem intToChars_ne_nil (i : Int) : intToChars i ≠ [] := by
  unfold intToChars
  split
  · simp
  · exact natToChars_ne_nil _

theorem decToChars_ne_nil (d : Dec) : decToChars d ≠ [] := by
  unfold decToChars
  split
  · exact intToChars_ne_nil _
  · intro hcontra
    have := congrArg List.length hcontra
    simp at this

theorem intToChars_head_props (i : Int) (c : Char) (t : Str)
    (h : intToChars i = c :: t) : c ≠ 'n' ∧ c ≠ 'N' := by
  have := numlike_char_props c (by
    rcases intToChars_head i c t h with h1 | h1
    · exact Or.inl h1
    · exact Or.inr (Or.inr h1))
  exact ⟨this.2.2.2.1, this.2.2.2.2⟩

theorem decToChars_head_props (d : Dec) (c : Char) (t : Str)
    (h : decToChars d = c :: t) : c ≠ 'n' ∧ c ≠ 'N' := by
  have := numlike_char_props c (by
    rcases decToChars_head d c t h with h1 | h1
    · exact Or.inl h1
    · exact Or.inr (Or.inr h1))
  exact ⟨this.2.2.2.1, this.2.2.2.2⟩

theorem null_options_heads :
    ∀ s ∈ null_options, s.head? = some 'n' ∨ s.head? = some 'N' := by decide

theorem null_options_no_space : ∀ s ∈ null_options, ' ' ∉ s := by decide

theorem not_null_of_head (s : Str)
    (h : ∀ c t, s = c :: t → c ≠ 'n' ∧ c ≠ 'N') : s ∉ null_options := by
  intro hmem
  have hh := null_options_heads s hmem
  cases s with
  | nil => simp at hh
  | cons c t =>
    have hc := h c t rfl
    simp only [List.head?_cons, Option.some.injEq] at hh
    rcases hh with h1 | h1
    · exact hc.1 h1
    · exact hc.2 h1

theorem mem_joinChar (sep : Char) (gs : List Str) (c : Char)
    (h : c ∈ joinChar sep gs) : c = sep ∨ ∃ g ∈ gs, c ∈ g := by
  induction gs with
  | nil => simp [joinChar] at h
  | cons g rest ih =>
    cases rest with
    | nil =>
      simp only [joinChar] at h
      exact Or.inr ⟨g, List.mem_cons_self g [], h⟩
    | cons g2 rest2 =>
      simp only [joinChar] at h
      rcases List.mem_append.1 h with h1 | h2
      · exact Or.inr ⟨g, List.mem_cons_self g _, h1⟩
      · rcases List.mem_cons.1 h2 with h3 | h4
        · exact Or.inl h3
        · rcases ih h4 with h5 | ⟨g3, hg3, hc3⟩
          · exact Or.inl h5
          · exact Or.inr ⟨g3, List.mem_cons_of_mem g hg3, hc3⟩

theorem joinChar_head (sep : Char) (g : Str) (gs : List Str) (c : Char) (t : Str)
    (hg : g = c :: t) : ∃ t2, joinChar sep (g :: gs) = c :: t2 := by
  cases gs with
  | nil => exact ⟨t, by simp [joinChar, hg]⟩
  | cons g2 rest =>
    subst hg
    exact ⟨t ++ sep :: joinChar sep (g2 :: rest), by simp [joinChar]⟩

theorem replaceAt_no_at (s : Str) : '@' ∉ replaceAt s := by
  intro h
  unfold replaceAt at h
  rcases List.mem_map.1 h with ⟨c, _, hc⟩
  by_cases h0 : c = '@'
  · rw [if_pos h0] at hc
    cases hc
  · rw [if_neg h0] at hc
    exact h0 hc

theorem replaceAt_eq_self (s : Str) (h : '@' ∉ s) : replaceAt s = s := by
  apply map_id_of_mem
  intro c hc
  have hcc : c ≠ '@' := fun h0 => h (h0 ▸ hc)
  rw [if_neg hcc]

theorem replaceAt_not_null (s : Str) (h : s ∉ null_options) :
    replaceAt s ∉ null_options := by
  by_cases hat : '@' ∈ s
  · intro hmem
    have hsp : ' ' ∈ replaceAt s :=
      List.mem_map.2 ⟨'@', hat, by simp⟩
    exact null_options_no_space _ hmem hsp
  · rw [replaceAt_eq_self s hat]
    exact h

theorem normStr_none : normStr Option.none = Option.none := rfl

theorem normStr_none_token : normStr (some "None".data) = Option.none := by decide

theorem normStr_some_shape (v : Option Str) (s : Str) (h : normStr v = some s) :
    '@' ∉ s ∧ s ∉ null_options := by
  cases v with
  | none => rw [normStr_none] at h; cases h
  | some s0 =>
    simp only [normStr, nullifyStr] at h
    by_cases h0 : s0 ∈ null_options
    · rw [if_pos h0] at h
      cases h
    · rw [if_neg h0] at h
      have h2 : some (replaceAt s0) = some s := h
      injection h2 with h3
      subst h3
      exact ⟨replaceAt_no_at s0, replaceAt_not_null s0 h0⟩

theorem normStr_of_clean (s : Str) (h1 : s ∉ null_options) (h2 : '@' ∉ s) :
    normStr (some s) = some s := by
  simp only [normStr, nullifyStr]
  rw [if_neg h1]
  show some (replaceAt s) = some s
  rw [replaceAt_eq_self s h2]

theorem parseList_map_print {α : Type} (f : Str → Option α) (print : α → Str)
    (hpp : ∀ a, f (print a) = some a) (l : List α) :
    parseList f (l.map print) = some l := by
  induction l with
  | nil => rfl
  | cons a rest ih =>
    simp only [List.map_cons, parseList, hpp a, ih]
    rfl

theorem parseList_length {α : Type} (f : Str → Option α) (l : List Str)
    (l' : List α) (h : parseList f l = some l') : l'.length = l.length := by
  induction l generalizing l' with
  | nil =>
    have h2 : some ([] : List α) = some l' := h
    injection h2 with h3
    subst h3
    rfl
  | cons s rest ih =>
    unfold parseList at h
    rcases hf : f s with _ | a
    · rw [hf] at h; cases h
    rw [hf] at h
    rcases hr : parseList f rest with _ | l2
    · rw [hr] at h; cases h
    rw [hr] at h
    have h2 : some (a :: l2) = some l' := h
    injection h2 with h3
    subst h3
    simp [ih l2 hr]

theorem procNumericList_inv {α : Type} (keep notAList : Bool) (l : List α)
    (f : NumField α) (h : procNumericList keep notAList l = .ok f) :
    (∃ a, l = [a] ∧ f = .scalar a) ∨ f = .list l := by
  match l with
  | [] =>
    simp only [procNumericList] at h
    by_cases hn : notAList
    · rw [if_pos hn] at h; cases h
    · rw [if_neg hn] at h
      injection h with h2
      exact Or.inr h2.symm
  | [a] =>
    simp only [procNumericList] at h
    by_cases hk : keep
    · rw [if_pos hk] at h
      by_cases hn : notAList
      · rw [if_pos hn] at h; cases h
      · rw [if_neg hn] at h
        injection h with h2
        exact Or.inr h2.symm
    · rw [if_neg hk] at h
      injection h with h2
      exact Or.inl ⟨a, rfl, h2.symm⟩
  | a :: b :: rest =>
    simp only [procNumericList] at h
    by_cases hn : notAList
    · rw [if_pos hn] at h; cases h
    · rw [if_neg hn] at h
      injection h with h2
      exact Or.inr h2.symm

/-- Round trip of the non-hyperparameter numeric conversion: re-serializing
a successfully converted value per dict_to_list and converting again yields
the same value.  The parse/print pair must round-trip and print only
comma-free, space-free characters that cannot collide with the null markers
or the at-sign replacement. -/
theorem procNumeric_roundtrip {α : Type} (parse : Str → Option α) (print : α → Str)
    (hpp : ∀ a, parse (print a) = some a)
    (hne : ∀ a, print a ≠ [])
    (hchar : ∀ a c, c ∈ print a →
      c ≠ ',' ∧ isPySpace c = false ∧ c ≠ '@' ∧ c ≠ 'n' ∧ c ≠ 'N')
    (hhead : ∀ a c t, print a = c :: t → c ≠ 'n' ∧ c ≠ 'N')
    (keep notAList : Bool) (v : Option Str) (f : NumField α)
    (h : procNumeric parse keep notAList v = .ok f) :
    procNumeric parse keep notAList (normStr (serializeNumField print f)) = .ok f := by
  have hps : ∀ a, parse (stripChars (print a)) = some a := fun a => by
    rw [stripChars_of_no_space (print a) (fun c hc => (hchar a c hc).2.1)]
    exact hpp a
  have hats : ∀ a, '@' ∉ print a := fun a hm => (hchar a '@' hm).2.2.1 rfl
  have hnns : ∀ a, print a ∉ null_options := fun a =>
    not_null_of_head (print a) (hhead a)
  have hcfs : ∀ a, ',' ∉ print a := fun a hm => (hchar a ',' hm).1 rfl
  cases v with
  | none =>
    have h2 : Except.ok (ε := PyErr) (NumField.nofield (α := α)) = .ok f := h
    injection h2 with h3
    subst h3
    rw [show serializeNumField print (NumField.nofield (α := α)) = some "None".data from rfl,
      normStr_none_token]
    rfl
  | some s =>
    simp only [procNumeric] at h
    rcases hm : parseList (fun seg => parse (stripChars seg)) (splitOnChar ',' s)
      with _ | l
    · rw [hm] at h; cases h
    rw [hm] at h
    have hlen : l.length = (splitOnChar ',' s).length := parseList_length _ _ _ hm
    have hlne : l ≠ [] := by
      intro h0
      subst h0
      rcases hsp : splitOnChar ',' s with _ | ⟨g, gs⟩
      · exact splitOnChar_ne_nil ',' s hsp
      · rw [hsp] at hlen
        simp at hlen
    rcases procNumericList_inv keep notAList l f h with ⟨a, hla, hfa⟩ | hfl
    · subst hla
      subst hfa
      rw [show serializeNumField print (NumField.scalar a) = some (print a) from rfl,
        normStr_of_clean (print a) (hnns a) (hats a)]
      simp only [procNumeric]
      rw [splitOnChar_no_sep ',' (print a) (hcfs a)]
      rw [show parseList (fun seg => parse (stripChars seg)) [print a] =
        some [a] from by simp [parseList, hps a]]
      exact h
    · subst hfl
      rw [show serializeNumField print (NumField.list l) =
        some (joinChar ',' (l.map print)) from rfl]
      have hmapne : l.map print ≠ [] := by
        intro h0
        exact hlne (List.map_eq_nil_iff.1 h0)
      have hjclean : joinChar ',' (l.map print) ∉ null_options ∧
          '@' ∉ joinChar ',' (l.map print) := by
        constructor
        · apply not_null_of_head
          intro c t hct
          rcases hjm : l.map print with _ | ⟨g, gs⟩
          · exact absurd hjm hmapne
          · rcases List.map_eq_cons_iff.1 hjm with ⟨a0, l0, _, hg, _⟩
            rcases hpa : print a0 with _ | ⟨c0, t0⟩
            · exact absurd hpa (hne a0)
            rcases joinChar_head ',' g gs c0 t0 (hg ▸ hpa) with ⟨t2, hj⟩
            rw [hjm, hj] at hct
            injection hct with hc1 _
            subst hc1
            exact hhead a0 c0 t0 hpa
        · intro hmem
          rcases mem_joinChar ',' (l.map print) '@' hmem with h1 | ⟨g, hg, hcg⟩
          · cases h1
          · rcases List.mem_map.1 hg with ⟨a0, _, hga⟩
            exact hats a0 (hga ▸ hcg)
      rw [normStr_of_clean _ hjclean.1 hjclean.2]
      simp only [procNumeric]
      rw [splitOnChar_joinChar ',' (l.map print) hmapne
        (fun g hg => by
          rcases List.mem_map.1 hg with ⟨a0, _, hga⟩
          exact fun hc => hcfs a0 (hga ▸ hc)),
        parseList_map_print _ print hps l]
      exact h

theorem procNumeric_roundtrip_int (keep notAList : Bool) (v : Option Str)
    (f : NumField Int) (h : procNumeric charsToInt? keep notAList v = .ok f) :
    procNumeric charsToInt? keep notAList
      (normStr (serializeNumField intToChars f)) = .ok f :=
  procNumeric_roundtrip charsToInt? intToChars charsToInt?_intToChars
    intToChars_ne_nil intToChars_char_props intToChars_head_props
    keep notAList v f h

theorem procNumeric_roundtrip_dec (keep notAList : Bool) (v : Option Str)
    (f : NumField Dec) (h : procNumeric parseDec? keep notAList v = .ok f) :
    procNumeric parseDec? keep notAList
      (normStr (serializeNumField decToChars f)) = .ok f :=
  procNumeric_roundtrip parseDec? decToChars parseDec?_decToChars
    decToChars_ne_nil decToChars_char_props decToChars_head_props
    keep notAList v f h

theorem checkNotAStrList_roundtrip (v : Option Str) (mt : StrField)
    (h : checkNotAStrList (normStr v) = .ok mt) :
    checkNotAStrList (normStr (serializeStrField mt)) = .ok mt := by
  rcases hn : normStr v with _ | s
  · rw [hn] at h
    have h2 : Except.ok (ε := PyErr) StrField.nofield = .ok mt := h
    injection h2 with h3
    subst h3
    rw [show serializeStrField StrField.nofield = some "None".data from rfl,
      normStr_none_token]
    rfl
  · rw [hn] at h
    simp only [checkNotAStrList] at h
    by_cases hcs : (',' ∈ s ∨ ' ' ∈ s)
    · rw [if_pos hcs] at h; cases h
    · rw [if_neg hcs] at h
      injection h with h3
      subst h3
      have hsh := normStr_some_shape v s hn
      rw [show serializeStrField (StrField.scalar s) = some s from rfl,
        normStr_of_clean s hsh.2 hsh.1]
      simp only [checkNotAStrList]
      rw [if_neg hcs]

theorem procResponseCols_roundtrip (v : Option Str) :
    procResponseColsNoHyp
        (normStr (serializeStrField (procResponseColsNoHyp (normStr v)))) =
      procResponseColsNoHyp (normStr v) := by
  rcases hn : normStr v with _ | s
  · rw [show procResponseColsNoHyp Option.none = StrField.nofield from rfl,
      show serializeStrField StrField.nofield = some "None".data from rfl,
      normStr_none_token]
    rfl
  · have hsh := normStr_some_shape v s hn
    rw [show procResponseColsNoHyp (some s) = StrField.list (splitOnChar ',' s) from rfl,
      show serializeStrField (StrField.list (splitOnChar ',' s)) =
        some (joinChar ',' (splitOnChar ',' s)) from rfl,
      joinChar_splitOnChar ',' s,
      normStr_of_clean s hsh.2 hsh.1]
    rfl

theorem mcstDefault_clean (mc : Option Str) (pt : Str) :
    mcstDefault mc pt ∉ null_options ∧ '@' ∉ mcstDefault mc pt := by
  unfold mcstDefault
  rcases hn : normStr mc with _ | s
  · by_cases hp : pt = "classification".data
    · show (if pt = "classification".data then "roc_auc".data else "r2".data) ∉
          null_options ∧
        '@' ∉ (if pt = "classification".data then "roc_auc".data else "r2".data)
      rw [if_pos hp]
      exact ⟨by decide, by decide⟩
    · show (if pt = "classification".data then "roc_auc".data else "r2".data) ∉
          null_options ∧
        '@' ∉ (if pt = "classification".data then "roc_auc".data else "r2".data)
      rw [if_neg hp]
      exact ⟨by decide, by decide⟩
  · have hsh := normStr_some_shape mc s hn
    exact ⟨hsh.2, hsh.1⟩

theorem mcstDefault_some_clean (s : Str) (pt : Str) (h1 : s ∉ null_options)
    (h2 : '@' ∉ s) : mcstDefault (some s) pt = s := by
  unfold mcstDefault
  rw [normStr_of_clean s h1 h2]

/-- C5: for every valid flat (non-hyperparameter-mode) configuration,
normalizing with postprocess_args and then re-serializing every field at the
command-line boundary per dict_to_list (lists joined by commas, scalars by
str()) and normalizing again round-trips the exact same ordered typed
values.  Python float values are modelled as exact decimals; their value
round trip matches the repr round-trip guarantee of Python floats. -/
theorem c5_normalize_serialize_roundtrip (p : RawParams) (q : ProcParams)
    (hhyp : p.hyperparam = false) (hok : postprocessArgs p = .ok q) :
    postprocessArgs (serializeParams q) = .ok q := by
  unfold postprocessArgs at hok
  split at hok
  · cases hok
  rename_i hg1
  split at hok
  · cases hok
  rename_i hg2
  split at hok
  · rename_i hb
    rw [hhyp] at hb
    exact Bool.noConfusion hb
  rcases h1 : procNumeric charsToInt? (keepB "layer_sizes") (nalB "layer_sizes")
      (normStr p.layer_sizes) with e | lsv
  · rw [h1, ebind_err] at hok; cases hok
  rw [h1, ebind_ok] at hok
  rcases h2 : procNumeric parseDec? (keepB "dropouts") (nalB "dropouts")
      (normStr p.dropouts) with e | dpv
  · rw [h2, ebind_err] at hok; cases hok
  rw [h2, ebind_ok] at hok
  rcases h3 : procNumeric parseDec? (keepB "weight_init_stddevs") (nalB "weight_init_stddevs")
      (normStr p.weight_init_stddevs) with e | wiv
  · rw [h3, ebind_err] at hok; cases hok
  rw [h3, ebind_ok] at hok
  rcases h4 : procNumeric parseDec? (keepB "bias_init_consts") (nalB "bias_init_consts")
      (normStr p.bias_init_consts) with e | biv
  · rw [h4, ebind_err] at hok; cases hok
  rw [h4, ebind_ok] at hok
  rcases h5 : procNumeric parseDec? (keepB "learning_rate") (nalB "learning_rate")
      (normStr p.learning_rate) with e | lrv
  · rw [h5, ebind_err] at hok; cases hok
  rw [h5, ebind_ok] at hok
  rcases h6 : checkNotAStrList (normStr p.model_type) with e | mtv
  · rw [h6, ebind_err] at hok; cases hok
  rw [h6, ebind_ok] at hok
  rcases h7 : checkLayerLengths lsv dpv wiv biv with e | u
  · rw [h7, ebind_err] at hok; cases hok
  rw [h7, ebind_ok] at hok
  cases u
  injection hok with hq
  have f_ss : q.split_strategy = p.split_strategy := by rw [← hq]
  have f_vf : q.split_valid_frac = p.split_valid_frac := by rw [← hq]
  have f_tf : q.split_test_frac = p.split_test_frac := by rw [← hq]
  have f_pt : q.prediction_type = p.prediction_type := by rw [← hq]
  have f_mc : q.model_choice_score_type =
      mcstDefault p.model_choice_score_type p.prediction_type := by rw [← hq]
  have f_hy : q.hyperparam = p.hyperparam := by rw [← hq]
  have f_ls : q.layer_sizes = lsv := by rw [← hq]
  have f_dp : q.dropouts = dpv := by rw [← hq]
  have f_wi : q.weight_init_stddevs = wiv := by rw [← hq]
  have f_bi : q.bias_init_consts = biv := by rw [← hq]
  have f_lr : q.learning_rate = lrv := by rw [← hq]
  have f_rc : q.response_cols = procResponseColsNoHyp (normStr p.response_cols) := by
    rw [← hq]
  have f_mt : q.model_type = mtv := by rw [← hq]
  have hcond : ¬(p.hyperparam = true) := by
    rw [hhyp]
    exact Bool.false_ne_true
  unfold postprocessArgs
  simp only [serializeParams]
  rw [f_ss, f_vf, f_tf, f_pt, f_mc, f_hy, f_ls, f_dp, f_wi, f_bi, f_lr, f_rc, f_mt]
  rw [if_neg hg1, if_neg hg2, if_neg hcond]
  rw [mcstDefault_some_clean (mcstDefault p.model_choice_score_type p.prediction_type)
    p.prediction_type (mcstDefault_clean _ _).1 (mcstDefault_clean _ _).2]
  rw [procNumeric_roundtrip_int _ _ _ _ h1, ebind_ok,
      procNumeric_roundtrip_dec _ _ _ _ h2, ebind_ok,
      procNumeric_roundtrip_dec _ _ _ _ h3, ebind_ok,
      procNumeric_roundtrip_dec _ _ _ _ h4, ebind_ok,
      procNumeric_roundtrip_dec _ _ _ _ h5, ebind_ok,
      checkNotAStrList_roundtrip _ _ h6, ebind_ok,
      h7, ebind_ok,
      procResponseCols_roundtrip p.response_cols]
  rw [← hq]

/-- Witness for C5 on c5Config. -/
theorem c5_normalize_serialize_roundtrip_witness :
    c5Config.hyperparam = false ∧
    postprocessArgs c5Config = .ok c5Out ∧
    postprocessArgs (serializeParams c5Out) = .ok c5Out :=
  ⟨rfl, by decide, c5_normalize_serialize_roundtrip c5Config c5Out rfl (by decide)⟩

/-- C4 counterexample: on c4Config two layered parameters are present with
different list lengths outside hyperparameter mode, yet normalization
succeeds instead of raising, because the length check of postprocess_args
(lines 1005-1011) runs only when layer_sizes is present. -/
theorem c4_counterexample :
    exceptOk (postprocessArgs c4Config) = true ∧
    (splitOnChar ',' "0.1,0.2".data).length = 2 ∧
    (splitOnChar ',' "0.3".data).length = 1 := by
  decide

/-- C4 (amended): outside hyperparameter mode, whenever normalization
succeeds and layer_sizes is present, every other present layered parameter
(dropouts, weight_init_stddevs, bias_init_consts) has the same length as
layer_sizes; equivalently, a mismatch with layer_sizes present makes
normalization raise.  When layer_sizes is absent no length validation is
performed (see the counterexample). -/
theorem c4_layer_length_consistency (p : RawParams) (q : ProcParams)
    (hhyp : p.hyperparam = false) (hok : postprocessArgs p = .ok q)
    (l : List Int) (hls : q.layer_sizes = .list l) :
    (∀ dl, q.dropouts = .list dl → dl.length = l.length) ∧
    (∀ wl, q.weight_init_stddevs = .list wl → wl.length = l.length) ∧
    (∀ bl, q.bias_init_consts = .list bl → bl.length = l.length) := by
  unfold postprocessArgs at hok
  split at hok
  · cases hok
  split at hok
  · cases hok
  split at hok
  · rename_i hb
    rw [hhyp] at hb
    exact Bool.noConfusion hb
  rcases h1 : procNumeric charsToInt? (keepB "layer_sizes") (nalB "layer_sizes")
      (normStr p.layer_sizes) with e | lsv
  · rw [h1, ebind_err] at hok; cases hok
  rw [h1, ebind_ok] at hok
  rcases h2 : procNumeric parseDec? (keepB "dropouts") (nalB "dropouts")
      (normStr p.dropouts) with e | dpv
  · rw [h2, ebind_err] at hok; cases hok
  rw [h2, ebind_ok] at hok
  rcases h3 : procNumeric parseDec? (keepB "weight_init_stddevs") (nalB "weight_init_stddevs")
      (normStr p.weight_init_stddevs) with e | wiv
  · rw [h3, ebind_err] at hok; cases hok
  rw [h3, ebind_ok] at hok
  rcases h4 : procNumeric parseDec? (keepB "bias_init_consts") (nalB "bias_init_consts")
      (normStr p.bias_init_consts) with e | biv
  · rw [h4, ebind_err] at hok; cases hok
  rw [h4, ebind_ok] at hok
  rcases h5 : procNumeric parseDec? (keepB "learning_rate") (nalB "learning_rate")
      (normStr p.learning_rate) with e | lrv
  · rw [h5, ebind_err] at hok; cases hok
  rw [h5, ebind_ok] at hok
  rcases h6 : checkNotAStrList (normStr p.model_type) with e | mtv
  · rw [h6, ebind_err] at hok; cases hok
  rw [h6, ebind_ok] at hok
  rcases h7 : checkLayerLengths lsv dpv wiv biv with e | u
  · rw [h7, ebind_err] at hok; cases hok
  rw [h7, ebind_ok] at hok
  cases u
  injection hok with hq
  subst hq
  simp only at hls
  have hchk := checkLayerLengths_ok lsv dpv wiv biv h7 l hls
  refine ⟨fun dl hdl => ?_, fun wl hwl => ?_, fun bl hbl => ?_⟩
  · exact lenMismatch_eq_len dpv l.length hchk.1 dl (by simpa using hdl)
  · exact lenMismatch_eq_len wiv l.length hchk.2.1 wl (by simpa using hwl)
  · exact lenMismatch_eq_len biv l.length hchk.2.2 bl (by simpa using hbl)

/-- Witness for the amended C4 theorem on c4OkConfig. -/
theorem c4_layer_length_consistency_witness :
    c4OkConfig.hyperparam = false ∧
    postprocessArgs c4OkConfig = .ok c4OkOut ∧
    (∀ dl, c4OkOut.dropouts = .list dl → dl.length = ([10, 20] : List Int).length) :=
  ⟨rfl, by decide,
   (c4_layer_length_consistency c4OkConfig c4OkOut rfl (by decide) [10, 20] (by decide)).1⟩

theorem overrideWith_assoc {α : Type} (a b c : Option α) :
    overrideWith (overrideWith a b) c = overrideWith a (overrideWith b c) := by
  cases a <;> rfl

theorem dictGet_dictSet {α : Type} (m : List (String × α)) (k0 : String) (v : α)
    (k : String) : dictGet (dictSet m k0 v) k =
      if k0 = k then some v else dictGet m k := by
  induction m with
  | nil => rfl
  | cons e rest ih =>
    rcases e with ⟨k1, v1⟩
    simp only [dictSet]
    by_cases h1 : k1 = k0
    · rw [if_pos h1]
      simp only [dictGet]
      by_cases h2 : k0 = k
      · rw [if_pos h2, if_pos h2]
      · rw [if_neg h2, if_neg h2, if_neg (h1 ▸ h2 : ¬k1 = k)]
    · rw [if_neg h1]
      simp only [dictGet]
      by_cases h2 : k1 = k
      · rw [if_pos h2, if_pos h2]
        have : ¬k0 = k := fun hc => h1 (h2 ▸ hc.symm ▸ rfl)
        rw [if_neg this]
      · rw [if_neg h2, if_neg h2, ih]

theorem lastValue_append {α : Type} (a b : List (String × α)) (k : String) :
    lastValue (a ++ b) k = overrideWith (lastValue b k) (lastValue a k) := by
  induction a with
  | nil =>
    simp only [List.nil_append, lastValue]
    cases h : lastValue b k <;> rfl
  | cons e rest ih =>
    rcases e with ⟨k0, v⟩
    show (match lastValue (rest ++ b) k with
      | some v2 => some v2
      | Option.none => if k0 = k then some v else Option.none) =
      overrideWith (lastValue b k)
        (match lastValue rest k with
         | some v2 => some v2
         | Option.none => if k0 = k then some v else Option.none)
    rw [ih]
    cases hb : lastValue b k with
    | none => simp only [overrideWith]
    | some vb => simp only [overrideWith]

theorem lastValue_some_mem {α : Type} (l : List (String × α)) (k : String)
    (v : α) (h : lastValue l k = some v) : k ∈ l.map Prod.fst := by
  induction l with
  | nil => cases h
  | cons e rest ih =>
    rcases e with ⟨k0, v0⟩
    simp only [lastValue] at h
    rcases h2 : lastValue rest k with _ | v2
    · rw [h2] at h
      by_cases h3 : k0 = k
      · simp [h3]
      · rw [if_neg h3] at h
        cases h
    · rw [h2] at h
      have h3 : some v2 = some v := h
      injection h3 with h4
      subst h4
      exact List.mem_cons_of_mem _ (ih h2)

theorem countKey_cons {α : Type} (k0 : String) (v : α) (l : List (String × α))
    (k : String) :
    countKey ((k0, v) :: l) k = (if k0 = k then 1 else 0) + countKey l k := by
  by_cases h : k0 = k
  · simp [countKey, List.filter_cons, h, Nat.add_comm]
  · simp [countKey, List.filter_cons, h]

theorem countKey_append {α : Type} (a b : List (String × α)) (k : String) :
    countKey (a ++ b) k = countKey a k + countKey b k := by
  simp [countKey, List.filter_append]

theorem countKey_pos_of_mem {α : Type} (l : List (String × α)) (k : String)
    (h : k ∈ l.map Prod.fst) : 1 ≤ countKey l k := by
  induction l with
  | nil => simp at h
  | cons e rest ih =>
    rcases e with ⟨k0, v0⟩
    rw [countKey_cons]
    simp only [List.map_cons, List.mem_cons] at h
    rcases h with h1 | h1
    · rw [if_pos h1.symm]
      omega
    · have := ih h1
      omega

theorem flattenVal_leaf_fst {α : Type} [DecidableEq α] (key : String) (x : α)
    (m : List (String × α)) (w : List String) :
    (flattenVal key (JVal.leaf x) m w).1 = dictSet m key x := by
  simp only [flattenVal]
  rcases h : dictGet m key with _ | old
  · rfl
  · show (if old ≠ x then (dictSet m key x, w ++ [key])
        else (dictSet m key x, w)).1 = dictSet m key x
    by_cases h2 : old ≠ x
    · rw [if_pos h2]
    · rw [if_neg h2]

mutual
theorem flattenVal_lookup {α : Type} [DecidableEq α] (key : String) (v : JVal α)
    (m : List (String × α)) (w : List String) (k : String) :
    dictGet (flattenVal key v m w).1 k =
      overrideWith (lastValue (leafVal key v) k) (dictGet m k) := by
  match v with
  | JVal.leaf x =>
    rw [flattenVal_leaf_fst, dictGet_dictSet]
    show _ = overrideWith (lastValue [(key, x)] k) (dictGet m k)
    simp only [lastValue]
    by_cases h : key = k
    · rw [if_pos h, if_pos h]
      rfl
    · rw [if_neg h, if_neg h]
      rfl
  | JVal.obj fields =>
    show dictGet (flattenObj fields m w).1 k = _
    rw [flattenObj_lookup fields m w k]
    rfl
theorem flattenObj_lookup {α : Type} [DecidableEq α] (fields : JObj α)
    (m : List (String × α)) (w : List String) (k : String) :
    dictGet (flattenObj fields m w).1 k =
      overrideWith (lastValue (leafObj fields) k) (dictGet m k) := by
  match fields with
  | JObj.nil =>
    show dictGet m k = overrideWith (lastValue [] k) (dictGet m k)
    rfl
  | JObj.cons k1 v1 rest =>
    show dictGet (flattenObj rest (flattenVal k1 v1 m w).1 (flattenVal k1 v1 m w).2).1 k = _
    rw [flattenObj_lookup rest _ _ k, flattenVal_lookup k1 v1 m w k]
    show _ = overrideWith (lastValue (leafVal k1 v1 ++ leafObj rest) k) (dictGet m k)
    rw [lastValue_append, overrideWith_assoc]
end

mutual
theorem flattenVal_warn {α : Type} [DecidableEq α] (key : String) (v : JVal α)
    (m : List (String × α)) (w : List String) (k : String)
    (hk : k ∈ (flattenVal key v m w).2) :
    k ∈ w ∨ ((dictGet m k).isSome = true ∧ k ∈ (leafVal key v).map Prod.fst) ∨
      2 ≤ countKey (leafVal key v) k := by
  match v with
  | JVal.leaf x =>
    simp only [flattenVal] at hk
    rcases h : dictGet m key with _ | old
    · rw [h] at hk
      exact Or.inl hk
    · rw [h] at hk
      have hk2 : k ∈ (if old ≠ x then (dictSet m key x, w ++ [key])
          else (dictSet m key x, w)).2 := hk
      by_cases h2 : old ≠ x
      · rw [if_pos h2] at hk2
        rcases List.mem_append.1 hk2 with h3 | h3
        · exact Or.inl h3
        · simp only [List.mem_singleton] at h3
          subst h3
          refine Or.inr (Or.inl ⟨?_, ?_⟩)
          · rw [h]; rfl
          · simp [leafVal]
      · rw [if_neg h2] at hk2
        exact Or.inl hk2
  | JVal.obj fields =>
    have hk2 : k ∈ (flattenObj fields m w).2 := hk
    rcases flattenObj_warn fields m w k hk2 with h | h | h
    · exact Or.inl h
    · exact Or.inr (Or.inl h)
    · exact Or.inr (Or.inr h)
theorem flattenObj_warn {α : Type} [DecidableEq α] (fields : JObj α)
    (m : List (String × α)) (w : List String) (k : String)
    (hk : k ∈ (flattenObj fields m w).2) :
    k ∈ w ∨ ((dictGet m k).isSome = true ∧ k ∈ (leafObj fields).map Prod.fst) ∨
      2 ≤ countKey (leafObj fields) k := by
  match fields with
  | JObj.nil => exact Or.inl hk
  | JObj.cons k1 v1 rest =>
    have hk2 : k ∈ (flattenObj rest (flattenVal k1 v1 m w).1 (flattenVal k1 v1 m w).2).2 := hk
    have hcount : countKey (leafObj (JObj.cons k1 v1 rest)) k =
        countKey (leafVal k1 v1) k + countKey (leafObj rest) k := by
      show countKey (leafVal k1 v1 ++ leafObj rest) k = _
      rw [countKey_append]
    have hkeys : (leafObj (JObj.cons k1 v1 rest)).map Prod.fst =
        (leafVal k1 v1).map Prod.fst ++ (leafObj rest).map Prod.fst := by
      show (leafVal k1 v1 ++ leafObj rest).map Prod.fst = _
      rw [List.map_append]
    rcases flattenObj_warn rest _ _ k hk2 with h | ⟨hs, hm⟩ | h
    · rcases flattenVal_warn k1 v1 m w k h with h3 | ⟨hs3, hm3⟩ | h3
      · exact Or.inl h3
      · refine Or.inr (Or.inl ⟨hs3, ?_⟩)
        rw [hkeys]
        exact List.mem_append.2 (Or.inl hm3)
      · refine Or.inr (Or.inr ?_)
        rw [hcount]
        omega
    · rw [flattenVal_lookup k1 v1 m w k] at hs
      rcases hlv : lastValue (leafVal k1 v1) k with _ | v2
      · rw [hlv] at hs
        refine Or.inr (Or.inl ⟨hs, ?_⟩)
        rw [hkeys]
        exact List.mem_append.2 (Or.inr hm)
      · have hmem1 : k ∈ (leafVal k1 v1).map Prod.fst := lastValue_some_mem _ _ _ hlv
        have hc1 := countKey_pos_of_mem _ _ hmem1
        have hc2 := countKey_pos_of_mem _ _ hm
        refine Or.inr (Or.inr ?_)
        rw [hcount]
        omega
    · refine Or.inr (Or.inr ?_)
      rw [hcount]
      omega
end

theorem valuesOf_append {α : Type} (a b : List (String × α)) (k : String) :
    valuesOf (a ++ b) k = valuesOf a k ++ valuesOf b k := by
  unfold valuesOf
  rw [List.filter_append, List.map_append]

theorem countKey_eq_length_valuesOf {α : Type} (l : List (String × α)) (k : String) :
    countKey l k = (valuesOf l k).length := by
  unfold countKey valuesOf
  rw [List.length_map]

theorem warnsOn_append {α : Type} [DecidableEq α] (xs ys : List α) :
    ∀ opt, warnsOn opt (xs ++ ys) = (warnsOn opt xs || warnsOn (lastOr opt xs) ys) := by
  induction xs with
  | nil =>
    intro opt
    show warnsOn opt ys = (false || warnsOn opt ys)
    rw [Bool.false_or]
  | cons v rest ih =>
    intro opt
    rw [List.cons_append]
    cases opt with
    | none =>
      show (false || warnsOn (some v) (rest ++ ys)) =
        ((false || warnsOn (some v) rest) || warnsOn (lastOr (some v) rest) ys)
      rw [ih (some v), Bool.false_or, Bool.false_or]
    | some o =>
      show (decide (o ≠ v) || warnsOn (some v) (rest ++ ys)) =
        ((decide (o ≠ v) || warnsOn (some v) rest) || warnsOn (lastOr (some v) rest) ys)
      rw [ih (some v), Bool.or_assoc]

theorem lastValue_cons {α : Type} (k0 : String) (v : α) (rest : List (String × α))
    (k : String) :
    lastValue ((k0, v) :: rest) k =
      overrideWith (lastValue rest k) (if k0 = k then some v else Option.none) := by
  show (match lastValue rest k with
    | some v2 => some v2
    | Option.none => if k0 = k then some v else Option.none) =
    overrideWith (lastValue rest k) (if k0 = k then some v else Option.none)
  cases lastValue rest k with
  | none => rfl
  | some v2 => rfl

theorem lastOr_valuesOf {α : Type} (l : List (String × α)) (k : String) :
    ∀ opt, lastOr opt (valuesOf l k) = overrideWith (lastValue l k) opt := by
  induction l with
  | nil => intro opt; rfl
  | cons e rest ih =>
    intro opt
    obtain ⟨k0, v⟩ := e
    rw [lastValue_cons]
    by_cases h : k0 = k
    · have hv : valuesOf ((k0, v) :: rest) k = v :: valuesOf rest k := by
        unfold valuesOf
        rw [List.filter_cons, if_pos (by simpa using h), List.map_cons]
      rw [hv, if_pos h]
      show lastOr (some v) (valuesOf rest k) = _
      rw [ih (some v)]
      cases lastValue rest k with
      | none => rfl
      | some v2 => rfl
    · have hv : valuesOf ((k0, v) :: rest) k = valuesOf rest k := by
        unfold valuesOf
        rw [List.filter_cons, if_neg (by simpa using h)]
      rw [hv, if_neg h, ih opt]
      cases lastValue rest k with
      | none => rfl
      | some v2 => rfl

theorem warnsOn_some_true {α : Type} [DecidableEq α] (vs : List α) :
    ∀ o, warnsOn (some o) vs = true ↔ ∃ b ∈ vs, b ≠ o := by
  induction vs with
  | nil =>
    intro o
    show false = true ↔ _
    simp
  | cons v rest ih =>
    intro o
    show (decide (o ≠ v) || warnsOn (some v) rest) = true ↔ _
    rw [Bool.or_eq_true, decide_eq_true_eq, ih v]
    constructor
    · rintro (h | ⟨b, hb, hbv⟩)
      · exact ⟨v, List.mem_cons_self v rest, fun hc => h (by rw [hc])⟩
      · by_cases hov : v = o
        · exact ⟨b, List.mem_cons_of_mem v hb, fun hc => hbv (hc.trans hov.symm)⟩
        · exact ⟨v, List.mem_cons_self v rest, hov⟩
    · rintro ⟨b, hb, hbo⟩
      rcases List.mem_cons.1 hb with hbv | hbr
      · subst hbv
        exact Or.inl (Ne.symm hbo)
      · by_cases hov : o = v
        · exact Or.inr ⟨b, hbr, fun hc => hbo (hc.trans hov.symm)⟩
        · exact Or.inl hov

theorem warnsOn_none_true {α : Type} [DecidableEq α] (vs : List α) :
    warnsOn (Option.none : Option α) vs = true ↔
      ∃ v1 ∈ vs, ∃ v2 ∈ vs, v1 ≠ v2 := by
  cases vs with
  | nil =>
    show false = true ↔ _
    simp
  | cons v rest =>
    show (false || warnsOn (some v) rest) = true ↔ _
    rw [Bool.false_or, warnsOn_some_true rest v]
    constructor
    · rintro ⟨b, hb, hbv⟩
      exact ⟨b, List.mem_cons_of_mem v hb, v, List.mem_cons_self v rest, hbv⟩
    · rintro ⟨v1, h1, v2, h2, h12⟩
      by_cases hv1 : v1 = v
      · have hv2 : v2 ≠ v := fun hc => h12 (hv1.trans hc.symm)
        rcases List.mem_cons.1 h2 with hc | h2r
        · exact absurd hc hv2
        · exact ⟨v2, h2r, hv2⟩
      · rcases List.mem_cons.1 h1 with hc | h1r
        · exact absurd hc hv1
        · exact ⟨v1, h1r, hv1⟩

theorem two_mem_le_length {α : Type} (l : List α) (a b : α) (ha : a ∈ l)
    (hb : b ∈ l) (hab : a ≠ b) : 2 ≤ l.length := by
  match l with
  | [] => cases ha
  | [x] =>
    have hax := List.mem_singleton.1 ha
    have hbx := List.mem_singleton.1 hb
    exact absurd (hax.trans hbx.symm) hab
  | x :: y :: rest =>
    show 2 ≤ rest.length + 1 + 1
    omega

theorem flattenVal_leaf_snd {α : Type} [DecidableEq α] (key : String) (x : α)
    (m : List (String × α)) (w : List String) :
    (flattenVal key (JVal.leaf x) m w).2 =
      (match dictGet m key with
       | some old => if old ≠ x then w ++ [key] else w
       | Option.none => w) := by
  simp only [flattenVal]
  rcases h : dictGet m key with _ | old
  · rfl
  · show (if old ≠ x then (dictSet m key x, w ++ [key])
        else (dictSet m key x, w)).2 =
      (if old ≠ x then w ++ [key] else w)
    by_cases h2 : old ≠ x
    · rw [if_pos h2, if_pos h2]
    · rw [if_neg h2, if_neg h2]

mutual
theorem flattenVal_warnIff {α : Type} [DecidableEq α] (key : String) (v : JVal α)
    (m : List (String × α)) (w : List String) (k : String) :
    k ∈ (flattenVal key v m w).2 ↔
      k ∈ w ∨ warnsOn (dictGet m k) (valuesOf (leafVal key v) k) = true := by
  match v with
  | JVal.leaf x =>
    rw [flattenVal_leaf_snd]
    by_cases h : key = k
    · subst h
      have hval : valuesOf (leafVal key (JVal.leaf x)) key = [x] := by
        show valuesOf [(key, x)] key = [x]
        unfold valuesOf
        rw [List.filter_cons, if_pos (by simp)]
        rfl
      rw [hval]
      rcases hg : dictGet m key with _ | old
      · show key ∈ w ↔ key ∈ w ∨ warnsOn (Option.none : Option α) [x] = true
        have hwn : warnsOn (Option.none : Option α) [x] = false := rfl
        rw [hwn]
        simp
      · show key ∈ (if old ≠ x then w ++ [key] else w) ↔
          key ∈ w ∨ warnsOn (some old) [x] = true
        by_cases hne : old ≠ x
        · rw [if_pos hne]
          have hwt : warnsOn (some old) [x] = true := by
            show (decide (old ≠ x) || false) = true
            simp [hne]
          rw [hwt]
          have hmem : key ∈ w ++ [key] :=
            List.mem_append.2 (Or.inr (List.mem_singleton.2 rfl))
          simp [hmem]
        · rw [if_neg hne]
          have hwf : warnsOn (some old) [x] = false := by
            show (decide (old ≠ x) || false) = false
            simp [hne]
          rw [hwf]
          simp
    · have hval : valuesOf (leafVal key (JVal.leaf x)) k = [] := by
        show valuesOf [(key, x)] k = []
        unfold valuesOf
        rw [List.filter_cons, if_neg (by simpa using h)]
        rfl
      rw [hval]
      have hw : warnsOn (dictGet m k) ([] : List α) = false := by
        cases dictGet m k
        · rfl
        · rfl
      rw [hw]
      rcases hg : dictGet m key with _ | old
      · simp
      · show k ∈ (if old ≠ x then w ++ [key] else w) ↔ k ∈ w ∨ false = true
        by_cases hne : old ≠ x
        · rw [if_pos hne]
          have hkey : (k = key) ↔ False := ⟨fun hc => h hc.symm, False.elim⟩
          rw [List.mem_append, List.mem_singleton, hkey]
          simp
        · rw [if_neg hne]
          simp
  | JVal.obj fields =>
    show k ∈ (flattenObj fields m w).2 ↔ _
    rw [flattenObj_warnIff fields m w k]
    exact Iff.rfl
theorem flattenObj_warnIff {α : Type} [DecidableEq α] (fields : JObj α)
    (m : List (String × α)) (w : List String) (k : String) :
    k ∈ (flattenObj fields m w).2 ↔
      k ∈ w ∨ warnsOn (dictGet m k) (valuesOf (leafObj fields) k) = true := by
  match fields with
  | JObj.nil =>
    show k ∈ w ↔
      k ∈ w ∨ warnsOn (dictGet m k) (valuesOf ([] : List (String × α)) k) = true
    have hw : warnsOn (dictGet m k) (valuesOf ([] : List (String × α)) k) = false := by
      cases dictGet m k
      · rfl
      · rfl
    rw [hw]
    simp
  | JObj.cons k1 v1 rest =>
    show k ∈ (flattenObj rest (flattenVal k1 v1 m w).1 (flattenVal k1 v1 m w).2).2 ↔ _
    rw [flattenObj_warnIff rest _ _ k, flattenVal_warnIff k1 v1 m w k,
      flattenVal_lookup k1 v1 m w k]
    have hov : overrideWith (lastValue (leafVal k1 v1) k) (dictGet m k) =
        lastOr (dictGet m k) (valuesOf (leafVal k1 v1) k) :=
      (lastOr_valuesOf (leafVal k1 v1) k (dictGet m k)).symm
    rw [hov]
    have happ : valuesOf (leafObj (JObj.cons k1 v1 rest)) k =
        valuesOf (leafVal k1 v1) k ++ valuesOf (leafObj rest) k := by
      show valuesOf (leafVal k1 v1 ++ leafObj rest) k = _
      rw [valuesOf_append]
    rw [happ, warnsOn_append, Bool.or_eq_true]
    tauto
end

/-- C6 counterexample: the key a occurs twice in c6Dup (at different
nesting levels), yet flatten_dict emits no warning, because the source warns
only when the reappearing value differs from the stored one (line 195).  So
the claim that a warning is emitted for every duplicate key is false. -/
theorem c6_counterexample :
    countKey (leafObj c6Dup) "a" = 2 ∧ (flatten_dict c6Dup).2 = [] := by
  decide

/-- C6 (amended): flattening a nested mapping yields a flat mapping in which
every key ends with its last-seen value in traversal order, and a warning is
emitted for a key exactly when some occurrence arrives with a value
different from the one currently stored — equivalently, exactly when the key
carries two distinct values somewhere in the input; so equal-value
duplicates are silent (see the counterexample), and every warned key does
occur more than once. -/
theorem c6_flatten_last_wins (α : Type) [DecidableEq α] (d : JObj α) :
    (∀ k, dictGet (flatten_dict d).1 k = lastValue (leafObj d) k) ∧
    (∀ k, k ∈ (flatten_dict d).2 ↔
      ∃ v1 ∈ valuesOf (leafObj d) k, ∃ v2 ∈ valuesOf (leafObj d) k, v1 ≠ v2) ∧
    (∀ k, k ∈ (flatten_dict d).2 → 2 ≤ countKey (leafObj d) k) := by
  have hiff : ∀ k, k ∈ (flatten_dict d).2 ↔
      ∃ v1 ∈ valuesOf (leafObj d) k, ∃ v2 ∈ valuesOf (leafObj d) k, v1 ≠ v2 := by
    intro k
    unfold flatten_dict
    rw [flattenObj_warnIff d [] [] k]
    have h0 : dictGet ([] : List (String × α)) k = Option.none := rfl
    rw [h0, warnsOn_none_true]
    simp
  refine ⟨?_, hiff, ?_⟩
  · intro k
    unfold flatten_dict
    rw [flattenObj_lookup d [] [] k]
    cases h : lastValue (leafObj d) k
    · rfl
    · rfl
  · intro k hk
    rcases (hiff k).mp hk with ⟨v1, h1, v2, h2, h12⟩
    rw [countKey_eq_length_valuesOf]
    exact two_mem_le_length _ v1 v2 h1 h2 h12

/-- Witness for the amended C6 theorem on c6DupDiff: the last-seen value
wins, the key a carrying the two distinct values 1 and 2 is warned, and it
occurs twice. -/
theorem c6_flatten_last_wins_witness :
    dictGet (flatten_dict c6DupDiff).1 "a" = lastValue (leafObj c6DupDiff) "a" ∧
    "a" ∈ (flatten_dict c6DupDiff).2 ∧
    2 ≤ countKey (leafObj c6DupDiff) "a" := by
  have h := c6_flatten_last_wins Int c6DupDiff
  have hmem : "a" ∈ (flatten_dict c6DupDiff).2 :=
    (h.2.1 "a").mpr ⟨1, by decide, 2, by decide, by decide⟩
  exact ⟨h.1 "a", hmem, h.2.2 "a" hmem⟩

theorem countArg_justArgs (args : List Str) (x : Str) (hx : hasDashDash x = true) :
    countArg (justArgs args) x = countArg args x := by
  induction args with
  | nil => rfl
  | cons a rest ih =>
    simp only [justArgs, countArg, List.filter_cons] at ih ⊢
    by_cases ha : hasDashDash a = true
    · rw [if_pos ha]
      simp only [List.filter_cons]
      by_cases hax : a = x
      · have hd : decide (a = x) = true := decide_eq_true hax
        rw [if_pos hd, if_pos hd, List.length_cons, List.length_cons, ih]
      · have hd : decide (a = x) = false := decide_eq_false hax
        simp only [hd, Bool.false_eq_true, if_false]
        exact ih
    · rw [if_neg ha]
      have hax : ¬a = x := fun hc => ha (hc ▸ hx)
      have hd : decide (a = x) = false := decide_eq_false hax
      simp only [hd, Bool.false_eq_true, if_false]
      exact ih

theorem duplicatesOf_ne_nil (args : List Str) (k : Str)
    (hdash : hasDashDash k = true) (hcount : 2 ≤ countArg args k) :
    duplicatesOf args ≠ [] := by
  have hmem : k ∈ args := by
    by_contra hnm
    have : countArg args k = 0 := by
      simp only [countArg, List.length_eq_zero, List.filter_eq_nil_iff]
      intro b hb
      simp only [decide_eq_true_eq]
      intro hbk
      exact hnm (hbk ▸ hb)
    omega
  have hmemj : k ∈ justArgs args := List.mem_filter.2 ⟨hmem, hdash⟩
  have hcj : 1 < countArg (justArgs args) k := by
    rw [countArg_justArgs args k hdash]
    omega
  have hmemf : k ∈ (justArgs args).filter fun x => decide (1 < countArg (justArgs args) x) :=
    List.mem_filter.2 ⟨hmemj, by simpa using hcj⟩
  have hmemd : k ∈ duplicatesOf args := List.mem_dedup.2 hmemf
  exact List.ne_nil_of_mem hmemd

/-- C7: whenever the same double-dash token occurs more than once in the
argument list, parse_command_line raises a ValueError naming the duplicated
keys before any parameter value is consumed (the error is independent of all
values), and the shell entry point, whose module guard performs the same
check on the full argv, exits with a non-zero status. -/
theorem c7_duplicate_args_rejected :
    (∀ (args : List Str) (k : Str), hasDashDash k = true → 2 ≤ countArg args k →
      parse_command_line args = .error (.valueError (String.mk (dupMessage args)))) ∧
    (∀ (argv : List Str) (k : Str), hasDashDash k = true → 2 ≤ countArg argv k →
      shellExitCode argv = 1) := by
  constructor
  · intro args k hdash hcount
    unfold parse_command_line
    rw [if_pos (duplicatesOf_ne_nil args k hdash hcount)]
  · intro argv k hdash hcount
    unfold shellExitCode shellMain
    rw [if_pos (duplicatesOf_ne_nil argv k hdash hcount)]

/-- Witness for C7 at a command line repeating --model_type, also run as the
argv of a shell invocation. -/
theorem c7_duplicate_args_rejected_witness :
    parse_command_line c7Args = .error (.valueError (String.mk (dupMessage c7Args))) ∧
    shellExitCode ("prog".data :: c7Args) = 1 :=
  ⟨c7_duplicate_args_rejected.1 c7Args "--model_type".data (by decide) (by decide),
   c7_duplicate_args_rejected.2 ("prog".data :: c7Args) "--model_type".data
     (by decide) (by decide)⟩

/-- C9: create_model_wrapper returns a wrapper exactly for model_type NN,
RF, or xgboost with a usable xgboost installation; every other model_type
value raises ValueError naming the type; xgboost with a missing package or a
version below 0.9 raises a plain Exception without constructing any
wrapper. -/
theorem c9_create_model_wrapper_dispatch (model_type output_dir : Str) (env : XgbEnv) :
    (model_type ≠ "NN".data → model_type ≠ "RF".data → model_type ≠ "xgboost".data →
      create_model_wrapper model_type output_dir env =
        .error (.valueError (String.mk ("Unknown model_type ".data ++ model_type)))) ∧
    ((∃ s, create_model_wrapper model_type output_dir env = .ok s) ↔
      (model_type = "NN".data ∨ model_type = "RF".data ∨
        (model_type = "xgboost".data ∧ env.xgboost_supported = true ∧
          Dec.lt env.xgb_version (Dec.mk 9 1) = false))) ∧
    (model_type = "xgboost".data →
      (env.xgboost_supported = false ∨ Dec.lt env.xgb_version (Dec.mk 9 1) = true) →
      ∃ msg, create_model_wrapper model_type output_dir env = .error (.exception msg)) := by
  refine ⟨?_, ⟨?_, ?_⟩, ?_⟩
  · intro h1 h2 h3
    unfold create_model_wrapper
    rw [if_neg h1, if_neg h2, if_neg h3]
  · rintro ⟨s, hs⟩
    unfold create_model_wrapper at hs
    by_cases h1 : model_type = "NN".data
    · exact Or.inl h1
    rw [if_neg h1] at hs
    by_cases h2 : model_type = "RF".data
    · exact Or.inr (Or.inl h2)
    rw [if_neg h2] at hs
    by_cases h3 : model_type = "xgboost".data
    · rw [if_pos h3] at hs
      refine Or.inr (Or.inr ⟨h3, ?_, ?_⟩)
      · by_cases hsup : env.xgboost_supported = false
        · rw [if_pos hsup] at hs
          cases hs
        · cases henv : env.xgboost_supported with
          | true => rfl
          | false => exact absurd henv hsup
      · by_cases hsup : env.xgboost_supported = false
        · rw [if_pos hsup] at hs
          cases hs
        · rw [if_neg hsup] at hs
          by_cases hlt : Dec.lt env.xgb_version (Dec.mk 9 1) = true
          · rw [if_pos hlt] at hs
            cases hs
          · cases hl : Dec.lt env.xgb_version (Dec.mk 9 1) with
            | false => rfl
            | true => exact absurd hl hlt
    · rw [if_neg h3] at hs
      cases hs
  · intro h
    rcases h with h1 | h2 | ⟨h3, hsup, hlt⟩
    · subst h1
      exact ⟨DCNNModelWrapper_init output_dir, by unfold create_model_wrapper; rw [if_pos rfl]⟩
    · subst h2
      refine ⟨DCRFModelWrapper_init output_dir, ?_⟩
      unfold create_model_wrapper
      rw [if_neg (by decide), if_pos rfl]
    · subst h3
      refine ⟨DCxgboostModelWrapper_init output_dir, ?_⟩
      unfold create_model_wrapper
      rw [if_neg (by decide), if_neg (by decide), if_pos rfl,
        if_neg (by rw [hsup]; exact fun hc => Bool.noConfusion hc),
        if_neg (by rw [hlt]; exact fun hc => Bool.noConfusion hc)]
  · intro h3 hbad
    subst h3
    unfold create_model_wrapper
    rw [if_neg (by decide), if_neg (by decide), if_pos rfl]
    rcases hbad with hsup | hlt
    · rw [if_pos hsup]
      exact ⟨_, rfl⟩
    · by_cases hsup : env.xgboost_supported = false
      · rw [if_pos hsup]
        exact ⟨_, rfl⟩
      · rw [if_neg hsup, if_pos hlt]
        exact ⟨_, rfl⟩

/-- Witness for C9: an unknown model_type raises ValueError, and xgboost
with the package missing raises a plain Exception. -/
theorem c9_create_model_wrapper_dispatch_witness :
    create_model_wrapper "SVM".data "out".data (XgbEnv.mk true (Dec.mk 1 0)) =
      .error (.valueError (String.mk ("Unknown model_type ".data ++ "SVM".data))) ∧
    ∃ msg, create_model_wrapper "xgboost".data "out".data (XgbEnv.mk false (Dec.mk 1 0)) =
      .error (.exception msg) :=
  ⟨(c9_create_model_wrapper_dispatch "SVM".data "out".data (XgbEnv.mk true (Dec.mk 1 0))).1
      (by decide) (by decide) (by decide),
   (c9_create_model_wrapper_dispatch "xgboost".data "out".data
      (XgbEnv.mk false (Dec.mk 1 0))).2.2 rfl (Or.inl rfl)⟩

/-- C10: for the random forest and xgboost wrappers, best_model_dir,
baseline_model_dir and model_dir all equal output_dir/best_model from
construction on, train leaves all three unchanged, and every completed train
call ends with best_epoch = 0. -/
theorem c10_ensemble_single_artifact (output_dir : Str) (num_folds : Nat) :
    ((DCRFModelWrapper_init output_dir).model_dir = pathJoin output_dir "best_model".data ∧
     (DCRFModelWrapper_init output_dir).best_model_dir =
        some ((DCRFModelWrapper_init output_dir).model_dir) ∧
     (DCRFModelWrapper_init output_dir).baseline_model_dir =
        some ((DCRFModelWrapper_init output_dir).model_dir) ∧
     (DCRFModelWrapper_train (DCRFModelWrapper_init output_dir) num_folds).1.model_dir =
        (DCRFModelWrapper_init output_dir).model_dir ∧
     (DCRFModelWrapper_train (DCRFModelWrapper_init output_dir) num_folds).1.best_model_dir =
        (DCRFModelWrapper_init output_dir).best_model_dir ∧
     (DCRFModelWrapper_train (DCRFModelWrapper_init output_dir) num_folds).1.baseline_model_dir =
        (DCRFModelWrapper_init output_dir).baseline_model_dir ∧
     (DCRFModelWrapper_train (DCRFModelWrapper_init output_dir) num_folds).1.best_epoch = some 0) ∧
    ((DCxgboostModelWrapper_init output_dir).model_dir = pathJoin output_dir "best_model".data ∧
     (DCxgboostModelWrapper_init output_dir).best_model_dir =
        some ((DCxgboostModelWrapper_init output_dir).model_dir) ∧
     (DCxgboostModelWrapper_init output_dir).baseline_model_dir =
        some ((DCxgboostModelWrapper_init output_dir).model_dir) ∧
     (DCxgboostModelWrapper_train (DCxgboostModelWrapper_init output_dir) num_folds).1.model_dir =
        (DCxgboostModelWrapper_init output_dir).model_dir ∧
     (DCxgboostModelWrapper_train (DCxgboostModelWrapper_init output_dir) num_folds).1.best_model_dir =
        (DCxgboostModelWrapper_init output_dir).best_model_dir ∧
     (DCxgboostModelWrapper_train (DCxgboostModelWrapper_init output_dir) num_folds).1.baseline_model_dir =
        (DCxgboostModelWrapper_init output_dir).baseline_model_dir ∧
     (DCxgboostModelWrapper_train (DCxgboostModelWrapper_init output_dir) num_folds).1.best_epoch = some 0) :=
  ⟨⟨rfl, rfl, rfl, rfl, rfl, rfl, rfl⟩, ⟨rfl, rfl, rfl, rfl, rfl, rfl, rfl⟩⟩

theorem Dec.leRefl (a : Dec) : Dec.le a a = true :=
  (Dec.le_iff a a).mpr le_rfl

theorem Dec.leTrans {a b c : Dec} (h1 : Dec.le a b = true)
    (h2 : Dec.le b c = true) : Dec.le a c = true :=
  (Dec.le_iff a c).mpr (le_trans ((Dec.le_iff a b).mp h1) ((Dec.le_iff b c).mp h2))

theorem Dec.leOfNotLe {a b : Dec} (h : ¬Dec.le a b = true) : Dec.le b a = true :=
  (Dec.le_iff b a).mpr (le_of_not_le fun hc => h ((Dec.le_iff a b).mpr hc))

theorem npArgmax_lt_length (l : List Dec) (h : l ≠ []) : npArgmax l < l.length := by
  induction l with
  | nil => exact absurd rfl h
  | cons x t ih =>
    cases t with
    | nil => exact Nat.zero_lt_one
    | cons y xs =>
      simp only [npArgmax]
      by_cases hc : Dec.le ((y :: xs).getD (npArgmax (y :: xs)) (Dec.mk 0 0)) x = true
      · rw [if_pos hc]
        exact Nat.zero_lt_succ _
      · rw [if_neg hc]
        exact Nat.succ_lt_succ (ih (List.cons_ne_nil y xs))

theorem npArgmax_maximal (l : List Dec) :
    ∀ i, i < l.length →
      Dec.le (l.getD i (Dec.mk 0 0)) (l.getD (npArgmax l) (Dec.mk 0 0)) = true := by
  induction l with
  | nil => intro i hi; exact absurd hi (Nat.not_lt_zero i)
  | cons x t ih =>
    cases t with
    | nil =>
      intro i hi
      match i, hi with
      | 0, _ => exact Dec.leRefl x
      | j + 1, hj => exact absurd (Nat.lt_of_succ_lt_succ hj) (Nat.not_lt_zero j)
    | cons y xs =>
      intro i hi
      simp only [npArgmax]
      by_cases hc : Dec.le ((y :: xs).getD (npArgmax (y :: xs)) (Dec.mk 0 0)) x = true
      · rw [if_pos hc]
        match i, hi with
        | 0, _ => exact Dec.leRefl x
        | j + 1, hj =>
          exact Dec.leTrans (ih j (Nat.lt_of_succ_lt_succ hj)) hc
      · rw [if_neg hc]
        match i, hi with
        | 0, _ => exact Dec.leOfNotLe hc
        | j + 1, hj => exact ih j (Nat.lt_of_succ_lt_succ hj)

theorem nnEpochLoop_spec (sys : Str) (elapsed : Nat → Nat) (k maxE : Nat) :
    ∀ n s c,
      (nnEpochLoop sys elapsed k (List.range' s n) maxE c =
         (maxE, c + n, (List.range' s n).map (fun e => (k, e))) ∧
       ∀ b, c ≤ b → b < c + n → timeExceeded sys (elapsed b) = false)
      ∨ (∃ j, j < n ∧
          nnEpochLoop sys elapsed k (List.range' s n) maxE c =
            (s + j, c + j + 1, (List.range' s j).map (fun e => (k, e))) ∧
          timeExceeded sys (elapsed (c + j)) = true) := by
  intro n
  induction n with
  | zero =>
    intro s c
    left
    refine ⟨rfl, fun b hb1 hb2 => absurd (lt_of_le_of_lt hb1 hb2) (by omega)⟩
  | succ m ih =>
    intro s c
    rw [List.range'_succ]
    by_cases hf : timeExceeded sys (elapsed c) = true
    · right
      refine ⟨0, Nat.succ_pos m, ?_, by simpa using hf⟩
      simp only [nnEpochLoop, hf, if_true, List.range'_zero, List.map_nil]
      rfl
    · have hf' : timeExceeded sys (elapsed c) = false := by
        cases h : timeExceeded sys (elapsed c)
        · rfl
        · exact absurd h hf
      rcases ih (s + 1) (c + 1) with ⟨heq, hnf⟩ | ⟨j, hj, heq, hfj⟩
      · left
        constructor
        · simp only [nnEpochLoop, hf', Bool.false_eq_true, if_false, heq,
            List.map_cons]
          refine congrArg (Prod.mk maxE) ?_
          refine congrArg₂ Prod.mk (by omega) rfl
        · intro b hb1 hb2
          rcases Nat.eq_or_lt_of_le hb1 with hb | hb
          · rw [← hb]; exact hf'
          · exact hnf b hb (by omega)
      · right
        refine ⟨j + 1, by omega, ?_, ?_⟩
        · simp only [nnEpochLoop, hf', Bool.false_eq_true, if_false, heq,
            List.map_cons]
          rw [List.range'_succ, List.map_cons]
          refine congrArg₂ Prod.mk (by omega) (congrArg₂ Prod.mk (by omega) rfl)
        · have harith : c + 1 + j = c + (j + 1) := by omega
          rw [harith] at hfj
          exact hfj

theorem nnEpochLoop_fits (sys : Str) (elapsed : Nat → Nat) (k maxE c : Nat) :
    (nnEpochLoop sys elapsed k (List.range maxE) maxE c).1 ≤ maxE ∧
    c ≤ (nnEpochLoop sys elapsed k (List.range maxE) maxE c).2.1 ∧
    (nnEpochLoop sys elapsed k (List.range maxE) maxE c).2.2 =
      (List.range (nnEpochLoop sys elapsed k (List.range maxE) maxE c).1).map
        (fun e => (k, e)) ∧
    ((∃ b, c ≤ b ∧ b < (nnEpochLoop sys elapsed k (List.range maxE) maxE c).2.1 ∧
        timeExceeded sys (elapsed b) = true) →
      (nnEpochLoop sys elapsed k (List.range maxE) maxE c).1 < maxE) := by
  rw [List.range_eq_range']
  rcases nnEpochLoop_spec sys elapsed k maxE maxE 0 c with ⟨heq, hnf⟩ | ⟨j, hj, heq, hfj⟩
  · rw [heq]
    refine ⟨le_rfl, show c ≤ c + maxE by omega, by rw [List.range_eq_range'], ?_⟩
    rintro ⟨b, hb1, hb2, hbf⟩
    rw [hnf b hb1 hb2] at hbf
    cases hbf
  · rw [heq]
    refine ⟨show 0 + j ≤ maxE by omega, show c ≤ c + j + 1 by omega, ?_,
      fun _ => show 0 + j < maxE by omega⟩
    show List.map (fun e => (k, e)) (List.range' 0 j) =
      (List.range (0 + j)).map (fun e => (k, e))
    rw [List.range_eq_range', Nat.zero_add]

theorem nnFoldLoop_bounds (sys : Str) (elapsed : Nat → Nat) :
    ∀ (ks : List Nat) (maxE c : Nat),
      (nnFoldLoop sys elapsed ks maxE c).1 ≤ maxE ∧
      c ≤ (nnFoldLoop sys elapsed ks maxE c).2.1 := by
  intro ks
  induction ks with
  | nil => intro maxE c; exact ⟨le_rfl, le_rfl⟩
  | cons k ks ih =>
    intro maxE c
    simp only [nnFoldLoop]
    obtain ⟨he1, he2, _, _⟩ := nnEpochLoop_fits sys elapsed k maxE c
    obtain ⟨hf1, hf2⟩ := ih (nnEpochLoop sys elapsed k (List.range maxE) maxE c).1
      (nnEpochLoop sys elapsed k (List.range maxE) maxE c).2.1
    exact ⟨le_trans hf1 he1, le_trans he2 hf2⟩

theorem nnFoldLoop_fire (sys : Str) (elapsed : Nat → Nat) :
    ∀ (ks : List Nat) (maxE c : Nat),
      (∃ b, c ≤ b ∧ b < (nnFoldLoop sys elapsed ks maxE c).2.1 ∧
        timeExceeded sys (elapsed b) = true) →
      (nnFoldLoop sys elapsed ks maxE c).1 < maxE := by
  intro ks
  induction ks with
  | nil =>
    intro maxE c h
    rcases h with ⟨b, hb1, hb2, _⟩
    have hc : (nnFoldLoop sys elapsed [] maxE c).2.1 = c := rfl
    rw [hc] at hb2
    omega
  | cons k ks ih =>
    intro maxE c h
    simp only [nnFoldLoop] at h ⊢
    obtain ⟨he1, _, _, hefire⟩ := nnEpochLoop_fits sys elapsed k maxE c
    obtain ⟨hf1, _⟩ := nnFoldLoop_bounds sys elapsed ks
      (nnEpochLoop sys elapsed k (List.range maxE) maxE c).1
      (nnEpochLoop sys elapsed k (List.range maxE) maxE c).2.1
    rcases h with ⟨b, hb1, hb2, hbf⟩
    by_cases hbe : b < (nnEpochLoop sys elapsed k (List.range maxE) maxE c).2.1
    · have := hefire ⟨b, hb1, hbe, hbf⟩
      omega
    · have := ih (nnEpochLoop sys elapsed k (List.range maxE) maxE c).1
        (nnEpochLoop sys elapsed k (List.range maxE) maxE c).2.1
        ⟨b, by omega, hb2, hbf⟩
      omega

theorem nnFoldLoop_nofire (sys : Str) (elapsed : Nat → Nat)
    (hnofire : ∀ b, timeExceeded sys (elapsed b) = false) :
    ∀ (ks : List Nat) (maxE c : Nat),
      (nnFoldLoop sys elapsed ks maxE c).1 = maxE := by
  intro ks
  induction ks with
  | nil => intro maxE c; rfl
  | cons k ks ih =>
    intro maxE c
    simp only [nnFoldLoop]
    have he : (nnEpochLoop sys elapsed k (List.range maxE) maxE c).1 = maxE := by
      rw [List.range_eq_range']
      rcases nnEpochLoop_spec sys elapsed k maxE maxE 0 c with ⟨heq, _⟩ | ⟨j, _, _, hfj⟩
      · rw [heq]
      · rw [hnofire (c + j)] at hfj
        cases hfj
    have hrest := ih (nnEpochLoop sys elapsed k (List.range maxE) maxE c).1
      (nnEpochLoop sys elapsed k (List.range maxE) maxE c).2.1
    rw [hrest, he]

theorem fitsOfFold_map_self (k : Nat) (l : List Nat) :
    fitsOfFold (l.map (fun e => (k, e))) k = l := by
  induction l with
  | nil => rfl
  | cons a t ih =>
    simp only [fitsOfFold] at ih ⊢
    rw [List.map_cons, List.filter_cons, if_pos (decide_eq_true rfl), List.map_cons, ih]

theorem fitsOfFold_map_ne (k k0 : Nat) (hk : k0 ≠ k) (l : List Nat) :
    fitsOfFold (l.map (fun e => (k0, e))) k = [] := by
  induction l with
  | nil => rfl
  | cons a t ih =>
    simp only [fitsOfFold] at ih ⊢
    rw [List.map_cons, List.filter_cons,
      if_neg (by simpa using hk : ¬decide (((k0, a) : Nat × Nat).1 = k) = true), ih]

theorem fitsOfFold_append (a b : List (Nat × Nat)) (k : Nat) :
    fitsOfFold (a ++ b) k = fitsOfFold a k ++ fitsOfFold b k := by
  unfold fitsOfFold
  rw [List.filter_append, List.map_append]

theorem nnFoldLoop_last_fits (sys : Str) (elapsed : Nat → Nat) :
    ∀ (ks : List Nat) (k maxE c : Nat), k ∉ ks →
      fitsOfFold (nnFoldLoop sys elapsed (ks ++ [k]) maxE c).2.2 k =
        List.range (nnFoldLoop sys elapsed (ks ++ [k]) maxE c).1 := by
  intro ks
  induction ks with
  | nil =>
    intro k maxE c _
    simp only [List.nil_append, nnFoldLoop, List.append_nil]
    obtain ⟨_, _, hfits, _⟩ := nnEpochLoop_fits sys elapsed k maxE c
    rw [hfits]
    exact fitsOfFold_map_self k _
  | cons k0 ks ih =>
    intro k maxE c hk
    have hk0 : k0 ≠ k := fun hc => hk (by rw [hc]; exact List.mem_cons_self k ks)
    have hks : k ∉ ks := fun hc => hk (List.mem_cons_of_mem k0 hc)
    simp only [List.cons_append, nnFoldLoop]
    rw [fitsOfFold_append]
    obtain ⟨_, _, hfits, _⟩ := nnEpochLoop_fits sys elapsed k0 maxE c
    rw [hfits, fitsOfFold_map_ne k k0 hk0, List.nil_append]
    exact ih k _ _ hks

theorem fitTotal_append (a b : List NNEvent) :
    fitTotal (a ++ b) = fitTotal a + fitTotal b := by
  induction a with
  | nil => simp [fitTotal]
  | cons e t ih =>
    cases e
    all_goals simp only [List.cons_append, fitTotal, List.append_eq, ih]
    all_goals omega

theorem copyDirs_append (a b : List NNEvent) :
    copyDirs (a ++ b) = copyDirs a ++ copyDirs b := by
  induction a with
  | nil => simp [copyDirs]
  | cons e t ih =>
    cases e <;>
      simp only [List.cons_append, copyDirs, List.append_eq, ih, List.nil_append,
        List.cons_append]

theorem pathJoin_best_ne_baseline (out : Str) :
    pathJoin out "best_model".data ≠ pathJoin out "baseline_epoch_model".data := by
  intro h
  unfold pathJoin at h
  have h2 := List.append_cancel_left h
  exact absurd h2 (by decide)

/-- C2: the refit block retrains from scratch (restore=False) for
min(best_epoch, baseline_epoch) increments, persists and copies that
checkpoint, then continues (restore=True, not restarting) for
max - min further increments when needed and copies that checkpoint too;
exactly two checkpoint copies are made, to the distinct best and baseline
directories, and the total refit fit increments equal
max(best_epoch, baseline_epoch). -/
theorem c2_refit_policy (best_epoch baseline_epoch : Nat) (output_dir : Str) :
    fitTotal (nnRefit best_epoch baseline_epoch
        (pathJoin output_dir "best_model".data)
        (pathJoin output_dir "baseline_epoch_model".data)) =
      max baseline_epoch best_epoch ∧
    copyDirs (nnRefit best_epoch baseline_epoch
        (pathJoin output_dir "best_model".data)
        (pathJoin output_dir "baseline_epoch_model".data)) =
      (if best_epoch ≤ baseline_epoch then
        [pathJoin output_dir "best_model".data,
         pathJoin output_dir "baseline_epoch_model".data]
       else
        [pathJoin output_dir "baseline_epoch_model".data,
         pathJoin output_dir "best_model".data]) ∧
    pathJoin output_dir "best_model".data ≠
      pathJoin output_dir "baseline_epoch_model".data ∧
    (nnRefit best_epoch baseline_epoch
        (pathJoin output_dir "best_model".data)
        (pathJoin output_dir "baseline_epoch_model".data)).take 4 =
      [NNEvent.recreate,
       NNEvent.refitFit (min baseline_epoch best_epoch) false,
       NNEvent.save,
       NNEvent.copy (if best_epoch ≤ baseline_epoch then
         pathJoin output_dir "best_model".data
        else pathJoin output_dir "baseline_epoch_model".data)] ∧
    (min baseline_epoch best_epoch < max baseline_epoch best_epoch →
      NNEvent.refitFit
          (max baseline_epoch best_epoch - min baseline_epoch best_epoch) true ∈
        nnRefit best_epoch baseline_epoch
          (pathJoin output_dir "best_model".data)
          (pathJoin output_dir "baseline_epoch_model".data)) := by
  refine ⟨?_, ?_, pathJoin_best_ne_baseline output_dir, ?_, ?_⟩
  · simp only [nnRefit, fitTotal_append]
    by_cases hlt : min baseline_epoch best_epoch < max baseline_epoch best_epoch
    · rw [if_pos hlt]
      simp only [fitTotal]
      omega
    · rw [if_neg hlt]
      simp only [fitTotal]
      have h1 : min baseline_epoch best_epoch ≤ max baseline_epoch best_epoch :=
        min_le_max
      omega
  · simp only [nnRefit, copyDirs_append]
    by_cases hlt : min baseline_epoch best_epoch < max baseline_epoch best_epoch
    · rw [if_pos hlt]
      by_cases hc : best_epoch ≤ baseline_epoch
      · simp [hc, copyDirs]
      · simp [hc, copyDirs]
    · rw [if_neg hlt]
      by_cases hc : best_epoch ≤ baseline_epoch
      · simp [hc, copyDirs]
      · simp [hc, copyDirs]
  · simp only [nnRefit]
    by_cases hc : best_epoch ≤ baseline_epoch
    · simp [hc, List.take]
    · simp [hc, List.take]
  · intro hlt
    simp only [nnRefit, if_pos hlt]
    simp [List.mem_append]

/-- Witness for C2 at baseline_epoch = 5, best_epoch = 2: exactly the two
distinct checkpoint directories are written, total refit increments are
max(5,2) = 5, the fresh retrain runs 2 increments without restoring, and the
continuation runs 3 increments with restore. -/
theorem c2_refit_policy_witness :
    fitTotal (nnRefit 2 5 (pathJoin "out".data "best_model".data)
        (pathJoin "out".data "baseline_epoch_model".data)) = 5 ∧
    copyDirs (nnRefit 2 5 (pathJoin "out".data "best_model".data)
        (pathJoin "out".data "baseline_epoch_model".data)) =
      [pathJoin "out".data "best_model".data,
       pathJoin "out".data "baseline_epoch_model".data] ∧
    pathJoin "out".data "best_model".data ≠
      pathJoin "out".data "baseline_epoch_model".data ∧
    NNEvent.refitFit 3 true ∈ nnRefit 2 5 (pathJoin "out".data "best_model".data)
        (pathJoin "out".data "baseline_epoch_model".data) := by
  have h := c2_refit_policy 2 5 "out".data
  exact ⟨h.1, h.2.1, h.2.2.1, h.2.2.2.2 (by decide)⟩

/-- C1: modelled from the spec for the score aggregation: the per-epoch
validation model-choice score consumed from the external accumulator is the
fold average of the per-fold scores (perf_data is not part of the sources).
For every run in which no time check fires (all folds and epochs complete),
best_epoch is an index below max_epochs at which the fold-aggregated
validation model-choice score is maximal, via best_epoch =
np.argmax(model_choice_scores) at line 704. -/
theorem c1_best_epoch_argmax (sys : Str) (elapsed : Nat → Nat) (score : Nat → Dec)
    (fscores : Nat → List ℚ)
    (max_epochs baseline_epoch num_folds : Nat) (output_dir : Str)
    (hnofire : ∀ b, timeExceeded sys (elapsed b) = false)
    (hE : 0 < max_epochs)
    (hscore : ∀ i, (score i).toRat = foldAggregatedScore (fscores i)) :
    (DCNNModelWrapper_train sys elapsed score max_epochs baseline_epoch
        num_folds output_dir).best_epoch < max_epochs ∧
    ∀ i, i < max_epochs →
      foldAggregatedScore (fscores i) ≤
        foldAggregatedScore (fscores
          ((DCNNModelWrapper_train sys elapsed score max_epochs baseline_epoch
            num_folds output_dir).best_epoch)) := by
  have hE' : (nnFoldLoop sys elapsed (List.range num_folds) max_epochs 0).1 =
      max_epochs :=
    nnFoldLoop_nofire sys elapsed hnofire _ _ _
  have hbest : (DCNNModelWrapper_train sys elapsed score max_epochs baseline_epoch
      num_folds output_dir).best_epoch =
      npArgmax ((List.range max_epochs).map score) := by
    show npArgmax
      ((List.range (nnFoldLoop sys elapsed (List.range num_folds) max_epochs 0).1).map
          score ++
        List.replicate
          (max_epochs - (nnFoldLoop sys elapsed (List.range num_folds) max_epochs 0).1)
          (Dec.mk 0 0)) = _
    rw [hE', Nat.sub_self, List.replicate_zero, List.append_nil]
  have hlen : ((List.range max_epochs).map score).length = max_epochs := by
    simp
  have hne : (List.range max_epochs).map score ≠ [] := by
    intro hc
    rw [← List.length_eq_zero] at hc
    omega
  have hblt : npArgmax ((List.range max_epochs).map score) < max_epochs := by
    have := npArgmax_lt_length ((List.range max_epochs).map score) hne
    omega
  constructor
  · rw [hbest]
    exact hblt
  · intro i hi
    rw [hbest]
    have h2 := npArgmax_maximal ((List.range max_epochs).map score) i (by omega)
    have hgi : ((List.range max_epochs).map score).getD i (Dec.mk 0 0) = score i := by
      rw [List.getD_eq_getElem _ _ (by omega)]
      simp
    have hgb : ((List.range max_epochs).map score).getD
        (npArgmax ((List.range max_epochs).map score)) (Dec.mk 0 0) =
        score (npArgmax ((List.range max_epochs).map score)) := by
      rw [List.getD_eq_getElem _ _ (by omega)]
      simp
    rw [hgi, hgb] at h2
    have h3 := (Dec.le_iff _ _).mp h2
    rw [hscore i, hscore _] at h3
    exact h3

/-- Witness for C1: a 3-fold, 3-epoch run off the LC system with
fold-averaged scores [0.1, 0.5, 0.3] selects best_epoch = 1, which is
maximal. -/
theorem c1_best_epoch_argmax_witness :
    (DCNNModelWrapper_train "SLURM".data (fun _ => 0) c1Score 3 2 3
        "out".data).best_epoch = 1 ∧
    foldAggregatedScore (c1FScores 0) ≤ foldAggregatedScore (c1FScores 1) ∧
    foldAggregatedScore (c1FScores 2) ≤ foldAggregatedScore (c1FScores 1) := by
  have h := c1_best_epoch_argmax "SLURM".data (fun _ => 0) c1Score c1FScores 3 2 3
    "out".data (fun _ => rfl) (by decide)
    (by
      intro i
      match i with
      | 0 => norm_num [c1Score, c1FScores, foldAggregatedScore, Dec.toRat]
      | 1 => norm_num [c1Score, c1FScores, foldAggregatedScore, Dec.toRat]
      | 2 => norm_num [c1Score, c1FScores, foldAggregatedScore, Dec.toRat]
      | n + 3 =>
        show (Dec.mk 0 0).toRat = foldAggregatedScore ([] : List ℚ)
        norm_num [Dec.toRat, foldAggregatedScore])
  have hb : (DCNNModelWrapper_train "SLURM".data (fun _ => 0) c1Score 3 2 3
      "out".data).best_epoch = 1 := by decide
  refine ⟨hb, ?_, ?_⟩
  · have := h.2 0 (by decide)
    rw [hb] at this
    exact this
  · have := h.2 2 (by decide)
    rw [hb] at this
    exact this

/-- C8: whenever the run is on the LC system and the elapsed time at some
performed check exceeds the 64800-second ceiling, the run still completes:
max_epochs is truncated below its configured value, the last fold's epoch
loop performed exactly the first (truncated) max_epochs epochs, and the
selector still produces an epoch index below the configured max_epochs --
the scoring stage runs on the truncated range. -/
theorem c8_time_budget_truncation (sys : Str) (elapsed : Nat → Nat)
    (score : Nat → Dec) (max_epochs baseline_epoch num_folds c0 : Nat)
    (output_dir : Str)
    (hnf : 0 < num_folds)
    (hsys : sys = "LC".data)
    (hex : 64800 < elapsed c0)
    (hreach : c0 < (DCNNModelWrapper_train sys elapsed score max_epochs
      baseline_epoch num_folds output_dir).checks) :
    (DCNNModelWrapper_train sys elapsed score max_epochs baseline_epoch
        num_folds output_dir).max_epochs < max_epochs ∧
    fitsOfFold (DCNNModelWrapper_train sys elapsed score max_epochs
        baseline_epoch num_folds output_dir).epochFits (num_folds - 1) =
      List.range (DCNNModelWrapper_train sys elapsed score max_epochs
        baseline_epoch num_folds output_dir).max_epochs ∧
    (DCNNModelWrapper_train sys elapsed score max_epochs baseline_epoch
        num_folds output_dir).best_epoch < max_epochs := by
  have hfired : timeExceeded sys (elapsed c0) = true := by
    rw [hsys]
    simp [timeExceeded, hex]
  have hchk : (DCNNModelWrapper_train sys elapsed score max_epochs baseline_epoch
      num_folds output_dir).checks =
      (nnFoldLoop sys elapsed (List.range num_folds) max_epochs 0).2.1 := rfl
  rw [hchk] at hreach
  have htrunc : (nnFoldLoop sys elapsed (List.range num_folds) max_epochs 0).1 <
      max_epochs :=
    nnFoldLoop_fire sys elapsed (List.range num_folds) max_epochs 0
      ⟨c0, Nat.zero_le c0, hreach, hfired⟩
  have hME : (DCNNModelWrapper_train sys elapsed score max_epochs baseline_epoch
      num_folds output_dir).max_epochs =
      (nnFoldLoop sys elapsed (List.range num_folds) max_epochs 0).1 := rfl
  refine ⟨by rw [hME]; exact htrunc, ?_, ?_⟩
  · obtain ⟨m, hm⟩ : ∃ m, num_folds = m + 1 := ⟨num_folds - 1, by omega⟩
    have hfits : (DCNNModelWrapper_train sys elapsed score max_epochs
        baseline_epoch num_folds output_dir).epochFits =
        (nnFoldLoop sys elapsed (List.range num_folds) max_epochs 0).2.2 := rfl
    rw [hfits, hME, hm, List.range_succ]
    simp only [Nat.add_sub_cancel]
    exact nnFoldLoop_last_fits sys elapsed (List.range m) m max_epochs 0
      (fun hc => absurd (List.mem_range.mp hc) (lt_irrefl _))
  · have hle : (nnFoldLoop sys elapsed (List.range num_folds) max_epochs 0).1 ≤
        max_epochs := by omega
    have hbeq : (DCNNModelWrapper_train sys elapsed score max_epochs
        baseline_epoch num_folds output_dir).best_epoch =
        npArgmax
          ((List.range (nnFoldLoop sys elapsed (List.range num_folds) max_epochs 0).1).map
              score ++
            List.replicate
              (max_epochs -
                (nnFoldLoop sys elapsed (List.range num_folds) max_epochs 0).1)
              (Dec.mk 0 0)) := rfl
    have hlenarr :
        ((List.range (nnFoldLoop sys elapsed (List.range num_folds) max_epochs 0).1).map
            score ++
          List.replicate
            (max_epochs -
              (nnFoldLoop sys elapsed (List.range num_folds) max_epochs 0).1)
            (Dec.mk 0 0)).length = max_epochs := by
      simp only [List.length_append, List.length_map, List.length_range,
        List.length_replicate]
      omega
    have hnearr :
        (List.range (nnFoldLoop sys elapsed (List.range num_folds) max_epochs 0).1).map
            score ++
          List.replicate
            (max_epochs -
              (nnFoldLoop sys elapsed (List.range num_folds) max_epochs 0).1)
            (Dec.mk 0 0) ≠ [] := by
      intro hc
      rw [← List.length_eq_zero] at hc
      omega
    have := npArgmax_lt_length _ hnearr
    rw [hbeq]
    omega

/-- Witness for C8: on LC with a 3-epoch single-fold run whose clock
exceeds the ceiling at the third check, max_epochs is truncated, the fold
fitted exactly the truncated range, and an epoch is still selected. -/
theorem c8_time_budget_truncation_witness :
    (DCNNModelWrapper_train "LC".data c8Elapsed (fun _ => Dec.mk 0 0) 3 2 1
        "out".data).max_epochs < 3 ∧
    fitsOfFold (DCNNModelWrapper_train "LC".data c8Elapsed (fun _ => Dec.mk 0 0)
        3 2 1 "out".data).epochFits 0 =
      List.range (DCNNModelWrapper_train "LC".data c8Elapsed (fun _ => Dec.mk 0 0)
        3 2 1 "out".data).max_epochs ∧
    (DCNNModelWrapper_train "LC".data c8Elapsed (fun _ => Dec.mk 0 0) 3 2 1
        "out".data).best_epoch < 3 :=
  c8_time_budget_truncation "LC".data c8Elapsed (fun _ => Dec.mk 0 0) 3 2 1 2
    "out".data (by decide) rfl (by decide) (by decide)

end AMPL

